import Mathlib

/-!
# Gem: the signal-driven lifecycle core

A shallow embedding of the lifecycle core of the Gem web framework (package `gem`):
the registry of signal actions, the table of listener descriptor offsets and the
environment handshake between a server process and the child it spawns on restart.

The file `server.go` that holds these functions is not part of the source tree at
hand; only its test file `server_test.go` is. Every definition that stands for a
function of `server.go` is therefore written from the specification and says so in
its doc comment; the shapes of the values (string slices, maps keyed by address,
integer actions) are the ones `server_test.go` uses.

Go values are embedded as follows.

* `string` is `String`, `[]string` is `List String`.
* `map[K]V` is an association list with at most one entry per key; `mapSet` is the
  assignment `m[k] = v`, `mapGet` the lookup, and the length of the list is `len(m)`.
* `error` is `Option String` (the text of the error), `nil` is `none`.
* `os.Signal` is the signal number, `SignalAction` (a Go integer type) is `Int`.
-/

namespace Gem

/-! ## Go maps -/

/-- The lookup `m[k]` of a Go map, with `none` for an absent key. -/
def mapGet {κ ν : Type} [DecidableEq κ] : List (κ × ν) → κ → Option ν
  | [], _ => none
  | (k', v) :: t, k => if k' = k then some v else mapGet t k

/-- The assignment `m[k] = v` of a Go map: the entry of `k` is overwritten when there
is one, and added otherwise. -/
def mapSet {κ ν : Type} [DecidableEq κ] : List (κ × ν) → κ → ν → List (κ × ν)
  | [], k, v => [(k, v)]
  | (k', v') :: t, k, v => if k' = k then (k', v) :: t else (k', v') :: mapSet t k v

/-- The keys of a Go map. -/
def mapKeys {κ ν : Type} (m : List (κ × ν)) : List κ := m.map Prod.fst

/-! ## Signal action registry -/

/-- An operating-system signal (`os.Signal`), identified by its number. -/
abbrev Signal := Nat

/-- The Go type `SignalAction`: an integer type, so that values outside the two named
constants (the test passes `-1`) can be handed to `SetSignalAction`. -/
abbrev SignalAction := Int

/-- The termination signal `syscall.SIGTERM`. -/
def SIGTERM : Signal := 15

/-- Modelled from the spec: the declarations of `server.go` that `SetSignalAction`
uses and that are not in the source tree. `SigRestart` and `SigIgnore` are the two
members of the `SignalAction` enumeration (their integer values are not known), and
`sigName` is the text that formatting a signal with `%s` gives. -/
structure SignalDecls where
  SigRestart : SignalAction
  SigIgnore : SignalAction
  sigName : Signal → String

/-- The registry: the Go map from signal to action. -/
abbrev Registry := List (Signal × SignalAction)

/-- Modelled from the spec: `SetSignalAction(signal, action)` of `server.go`, which is
not in the source tree. Section 4.1: it fails with `InvalidAction` when the action is
outside the enumeration, fails with `ReservedSignal` when the signal is the reserved
termination signal, and on success overwrites any prior action of that signal.
Section 7: on an error the registry is not mutated. The error texts are the ones
`TestServer_SetSignalAction` expects. The result is the registry after the call and
the returned error. -/
def SetSignalAction (d : SignalDecls) (reg : Registry) (sig : Signal)
    (action : SignalAction) : Registry × Option String :=
  if action ≠ d.SigRestart ∧ action ≠ d.SigIgnore then
    (reg, some ("invalid signal action: " ++ toString action))
  else if sig = SIGTERM then
    (reg, some ("the signal " ++ d.sigName sig ++ " is not allow to custom"))
  else
    (mapSet reg sig action, none)

/-- The registry after a sequence of `SetSignalAction` calls, made one after the other
from the registry `reg`. -/
def applyCalls (d : SignalDecls) (reg : Registry) :
    List (Signal × SignalAction) → Registry
  | [] => reg
  | c :: rest => applyCalls d (SetSignalAction d reg c.1 c.2).1 rest

/-- Sample declarations for evaluating the registry on concrete inputs: the names Go
gives the signals on Linux, and two distinct action constants. -/
def sampleDecls : SignalDecls where
  SigRestart := 1
  SigIgnore := 0
  sigName := fun s =>
    if s = 1 then "hangup" else if s = 2 then "interrupt" else
    if s = 15 then "terminated" else "signal " ++ toString s

/-! ## Address lists and the process environment -/

/-- The Go call `strings.Join(addrs, ",")`: the comma-joined address list. -/
def joinAddrs : List String → String
  | [] => ""
  | [a] => a
  | a :: b :: rest => a ++ "," ++ joinAddrs (b :: rest)

/-- The rest of an environment entry after the given leading characters, when the
entry starts with them. -/
def stripKey : List Char → List Char → Option (List Char)
  | [], rest => some rest
  | _ :: _, [] => none
  | k :: ks, c :: cs => if k = c then stripKey ks cs else none

/-- The loop `for i, addr := range addrs { table[addr] = i }`, started at index `i`
with the table `tbl`. -/
def buildOffsetsFrom (tbl : List (String × Nat)) (i : Nat) :
    List String → List (String × Nat)
  | [] => tbl
  | a :: rest => buildOffsetsFrom (mapSet tbl a i) (i + 1) rest

/-- Modelled from the spec: `BuildOffsetTable(addressList)`, the table that
`initServersFdOffset` of `server.go` (not in the source tree) fills. Section 3: a
mapping from listen address to integer offset, built by enumerating the ordered
address sequence (0, 1, 2, ... in list order); section 4.2: offset `i` is assigned to
the `i`-th address. The table is a Go map keyed by address, as `TestServer_Init`
reads it (`serversFdOffset[":8080"]`, `len(serversFdOffset)`). -/
def BuildOffsetTable (addrs : List String) : List (String × Nat) :=
  buildOffsetsFrom [] 0 addrs

/-- The entry of the child environment that carries the address list. -/
def addrsEntry (addrs : List String) : String :=
  "GEM_SERVER_ADDRS=" ++ joinAddrs addrs

/-- Whether an environment entry sets `GEM_SERVER_ADDRS`. -/
def isAddrsEntry (e : String) : Bool :=
  (stripKey "GEM_SERVER_ADDRS=".data e.data).isSome

/-- Modelled from the spec: `initEnv(&env, addrs)` of `server.go` (not in the source
tree), with the process-wide flag `isGracefulRestart` as an argument and the
environment after the call as the result. Section 4.3 (`BuildChildEnvironment`): in
a fresh-launch process two entries are appended to the environment, the restart
marker and the comma-joined address list. For a process that is itself a restarted
child the specification says nothing; the branch below reproduces the one input of
`TestInitEnv` (the address entry is replaced in place) and no statement of this
development is about it. -/
def initEnv (isGracefulRestart : Bool) (env : List String) (addrs : List String) :
    List String :=
  if isGracefulRestart then
    env.map (fun e => if isAddrsEntry e then addrsEntry addrs else e)
  else
    env ++ ["GEM_GRACEFUL_RESTART=true", addrsEntry addrs]

/-- Modelled from the spec: `BuildChildEnvironment(baseEnv, addressList)` of section
4.3, which is `initEnv` in a fresh-launch process. -/
def BuildChildEnvironment (env : List String) (addrs : List String) : List String :=
  initEnv false env addrs

/-- Modelled from the spec: the part of the server of `server.go` (not in the source
tree) that drain acts on. `DisableKeepalive` is the flag of the underlying engine
that `TestServer_Other` reads (`srv.server.DisableKeepalive`), `listeners` are the
addresses with an open listener, and `inflight` is the number of requests in
flight. -/
structure Server where
  DisableKeepalive : Bool
  listeners : List String
  inflight : Nat

/-- Modelled from the spec: `New(addr, handler)` of `server.go` (not in the source
tree): a server that has started no listener; the engine is in its default
configuration, with keep-alive connections enabled. -/
def New (_addr : String) : Server :=
  { DisableKeepalive := false, listeners := [], inflight := 0 }

/-- Modelled from the spec: `stop()` of `server.go` (not in the source tree), the
`Stop` of section 4.5: it marks the server as not accepting new keep-alive
connections, waits for the requests in flight or forces them closed when the timeout
elapses, and closes all listeners. The state is the one when control returns. -/
def stop (srv : Server) : Server :=
  { srv with DisableKeepalive := true, listeners := [], inflight := 0 }

/-! ## The restart coordinator -/

/-- Modelled from the spec: the states of a restart cycle, section 4.4. -/
inductive RestartState where
  | Idle
  | Spawning
  | AwaitingChildReady
  | Draining
  | Stopped
  deriving DecidableEq, Repr

/-- Modelled from the spec: what can happen to the restart coordinator, section 4.4:
a `Restart` action fires, the spawn of the child succeeds or fails, the child
confirms its start-up or the grace interval elapses, and the drain completes. -/
inductive RestartEvent where
  | Restart
  | Spawned
  | SpawnFailure
  | ChildReady
  | ReadinessTimeout
  | Drained
  deriving DecidableEq, Repr

/-- Modelled from the spec: the restart coordinator of section 4.4, which has no code
in the source tree: its state, the number of restart cycles in flight (begun and not
abandoned) and the number of children spawned by the cycles in flight. -/
structure Coordinator where
  state : RestartState
  cycles : Nat
  children : Nat
  deriving DecidableEq, Repr

/-- Modelled from the spec: one step of the restart coordinator, section 4.4. A
`Restart` action begins a cycle only from `Idle` and is ignored in every other
state; a successful spawn gives `AwaitingChildReady` with one more child; a failed
spawn and a readiness timeout abandon the cycle and return to `Idle`; the
confirmation of the child gives `Draining`; the end of the drain gives `Stopped`.
An event that does not belong to the current state changes nothing. -/
def Coordinator.step (c : Coordinator) : RestartEvent → Coordinator
  | .Restart =>
    match c.state with
    | .Idle => { c with state := .Spawning, cycles := c.cycles + 1 }
    | _ => c
  | .Spawned =>
    match c.state with
    | .Spawning => { c with state := .AwaitingChildReady, children := c.children + 1 }
    | _ => c
  | .SpawnFailure =>
    match c.state with
    | .Spawning => { c with state := .Idle, cycles := c.cycles - 1 }
    | _ => c
  | .ChildReady =>
    match c.state with
    | .AwaitingChildReady => { c with state := .Draining }
    | _ => c
  | .ReadinessTimeout =>
    match c.state with
    | .AwaitingChildReady =>
      { state := .Idle, cycles := c.cycles - 1, children := c.children - 1 }
    | _ => c
  | .Drained =>
    match c.state with
    | .Draining => { c with state := .Stopped }
    | _ => c

/-- The coordinator of a process that has not begun any restart cycle. -/
def Coordinator.init : Coordinator :=
  { state := .Idle, cycles := 0, children := 0 }

/-- The coordinator after a sequence of events, from the coordinator `c`. -/
def Coordinator.run (c : Coordinator) : List RestartEvent → Coordinator
  | [] => c
  | e :: rest => Coordinator.run (c.step e) rest

/-! ## Application: components and callbacks (`application.go`) -/

/-- The components of an application: the Go field `components
map[string]interface{}`, which is `none` for the nil map of a zero-value
`Application`. A component is an `interface{}` value: `none` is the nil
interface. -/
abbrev Components (γ : Type) := Option (List (String × Option γ))

/-- The method `Application.Component`: the lookup `app.components[name]`, which gives the nil
interface for an absent name and for the nil map. -/
def Component {γ : Type} (components : Components γ) (name : String) : Option γ :=
  match components with
  | none => none
  | some m => (mapGet m name).getD none

/-- The method `Application.SetComponent`: the components after the call and the returned
error. `quote` is the rendering of a string by the verb `%q` of `fmt`. -/
def SetComponent {γ : Type} (quote : String → String) (components : Components γ)
    (name : String) (component : Option γ) : Components γ × Option String :=
  let m := match components with
    | none => []
    | some m => m
  if (mapGet m name).isSome then
    (some m, some ("the component named " ++ quote name ++ " already exists"))
  else
    (some (mapSet m name component), none)

/-- Whether a component is stored under the name: the `ok` of
`_, ok := app.components[name]`. -/
def hasComponent {γ : Type} (components : Components γ) (name : String) : Bool :=
  match components with
  | none => false
  | some m => (mapGet m name).isSome

/-- The components after a sequence of `SetComponent` calls. -/
def setComponents {γ : Type} (quote : String → String) (components : Components γ) :
    List (String × Option γ) → Components γ
  | [] => components
  | c :: rest => setComponents quote (SetComponent quote components c.1 c.2).1 rest

/-- The Go type `ApplicationCallback`, a `func() error`: a callback acts on the state
of the program, of type `σ`, and returns an error or nil. -/
abbrev ApplicationCallback (σ : Type) := σ → σ × Option String

/-- The method `Application.Init`: the callbacks are invoked in order until one returns a
non-nil error, which is returned. The result is the state of the program after the
call and the returned error. -/
def Init {σ : Type} : List (ApplicationCallback σ) → σ → σ × Option String
  | [], s => (s, none)
  | callback :: rest, s =>
    match callback s with
    | (s', some err) => (s', some err)
    | (s', none) => Init rest s'

/-- The loop of `Application.Close`, with the errors collected so far. -/
def closeLoop {σ : Type} :
    List (ApplicationCallback σ) → σ → List String → σ × List String
  | [], s, errs => (s, errs)
  | callback :: rest, s, errs =>
    match callback s with
    | (s', some err) => closeLoop rest s' (errs ++ [err])
    | (s', none) => closeLoop rest s' errs

/-- The method `Application.Close`: every callback is invoked and the non-nil errors are
collected. The result is the state of the program after the call and the returned
slice of errors. -/
def Close {σ : Type} (closeCallbacks : List (ApplicationCallback σ)) (s : σ) :
    σ × List String :=
  closeLoop closeCallbacks s []

/-- The state of the program after every callback of the list has been invoked once,
in list order. -/
def invokeAll {σ : Type} : List (ApplicationCallback σ) → σ → σ
  | [], s => s
  | callback :: rest, s => invokeAll rest (callback s).1

/-- What the callbacks of the list return when every one of them is invoked once, in
list order. -/
def outcomes {σ : Type} : List (ApplicationCallback σ) → σ → List (Option String)
  | [], _ => []
  | callback :: rest, s => (callback s).2 :: outcomes rest (callback s).1

/-! ## Application: controllers (`application.go`, `controller.go`) -/

/-- Modelled from the spec: the method-name constants `MethodGet`, ..., which
`application.go` uses and whose declaration is not in the source tree. They are the
names of the request methods, as the comment on `WebController.Methods` says ("the
name of request method, case-sensitive, such as GET, POST"). -/
def MethodGet : String := "GET"

/-- Modelled from the spec: the constant `MethodPost`, see `MethodGet`. -/
def MethodPost : String := "POST"

/-- Modelled from the spec: the constant `MethodPut`, see `MethodGet`. -/
def MethodPut : String := "PUT"

/-- Modelled from the spec: the constant `MethodDelete`, see `MethodGet`. -/
def MethodDelete : String := "DELETE"

/-- Modelled from the spec: the constant `MethodHead`, see `MethodGet`. -/
def MethodHead : String := "HEAD"

/-- Modelled from the spec: the constant `MethodOptions`, see `MethodGet`. -/
def MethodOptions : String := "OPTIONS"

/-- Modelled from the spec: the constant `MethodPatch`, see `MethodGet`. -/
def MethodPatch : String := "PATCH"

/-- What `register` needs of a value of the Go interface `Controller`: the result of
its `Init(app)`, the result of `Methods()`, and the result of `HandlerOptions()`,
which is `none` for a nil map. The type `ω` is the one of the handler options
(`*HandlerOption`). -/
structure Controller (ω : Type) where
  Init : Option String
  Methods : List String
  HandlerOptions : Option (List (String × ω))

/-- A registration call made on the router: `verb` names the method of `Router` that
is called (`GET`, `POST`, ...), with the route path and the handler option; the
handler is the method of the controller with the same name. The router itself is
not in the source tree and is represented by the calls made on it, in order. -/
structure RouterCall (ω : Type) where
  verb : String
  path : String
  option : ω

/-- The method `Application.getHandlerOption`; `empty` is the package variable
`emptyHandlerOption`. -/
def getHandlerOption {ω : Type} (empty : ω) (controller : Controller ω)
    (method : String) : ω :=
  match controller.HandlerOptions with
  | none => empty
  | some options =>
    match mapGet options method with
    | some option => option
    | none => empty

/-- The loop of `Application.register` over the methods of the controller: a
supported method registers its route on the router, the first method that is none
of the seven constants ends the loop with an error. -/
def registerLoop {ω : Type} (quote : String → String) (empty : ω) (path : String)
    (controller : Controller ω) :
    List (RouterCall ω) → List String → List (RouterCall ω) × Option String
  | router, [] => (router, none)
  | router, method :: rest =>
    if method = MethodGet then
      registerLoop quote empty path controller
        (router ++ [⟨"GET", path, getHandlerOption empty controller MethodGet⟩]) rest
    else if method = MethodPost then
      registerLoop quote empty path controller
        (router ++ [⟨"POST", path, getHandlerOption empty controller MethodPost⟩]) rest
    else if method = MethodPut then
      registerLoop quote empty path controller
        (router ++ [⟨"PUT", path, getHandlerOption empty controller MethodPut⟩]) rest
    else if method = MethodDelete then
      registerLoop quote empty path controller
        (router ++ [⟨"DELETE", path, getHandlerOption empty controller MethodDelete⟩]) rest
    else if method = MethodHead then
      registerLoop quote empty path controller
        (router ++ [⟨"HEAD", path, getHandlerOption empty controller MethodHead⟩]) rest
    else if method = MethodOptions then
      registerLoop quote empty path controller
        (router ++ [⟨"OPTIONS", path, getHandlerOption empty controller MethodOptions⟩])
        rest
    else if method = MethodPatch then
      registerLoop quote empty path controller
        (router ++ [⟨"PATCH", path, getHandlerOption empty controller MethodPatch⟩]) rest
    else
      (router, some ("unsupport method " ++ quote method))

/-- The method `Application.register`: the calls made on the router after the call, and the
returned error. `quote` is the rendering of a string by the verb `%q` of `fmt`. -/
def register {ω : Type} (quote : String → String) (empty : ω)
    (router : List (RouterCall ω)) (path : String) (controller : Controller ω) :
    List (RouterCall ω) × Option String :=
  match controller.Init with
  | some err => (router, some err)
  | none => registerLoop quote empty path controller router controller.Methods

/-- The seven method names that `register` supports. -/
def supportedMethods : List String :=
  [MethodGet, MethodPost, MethodPut, MethodDelete, MethodHead, MethodOptions, MethodPatch]

/-- A rendering of `%q` for strings of printable ASCII characters without a double
quote or a backslash, for which it adds the surrounding double quotes only. It is
used to evaluate the functions on concrete inputs. -/
def sampleQuote (s : String) : String := "\"" ++ s ++ "\""

/-! ## Paths (`path.Join`, `filepath.Base`) -/

/-- The pieces of a path between its slashes, in order. -/
def splitOnSlash : List Char → List (List Char)
  | [] => [[]]
  | c :: cs =>
    if c = '/' then [] :: splitOnSlash cs
    else
      match splitOnSlash cs with
      | [] => [[c]]
      | w :: ws => (c :: w) :: ws

/-- One element of a path in `path.Clean`, with the elements kept so far (the last
one first): an empty element and `.` are dropped, `..` removes the last element
kept when there is one that is not itself `..`, and is kept otherwise unless the
path is rooted; any other element is kept. -/
def cleanStep (rooted : Bool) (kept : List (List Char)) (seg : List Char) :
    List (List Char) :=
  if seg = [] ∨ seg = ['.'] then kept
  else if seg = ['.', '.'] then
    match kept with
    | top :: below =>
      if top = ['.', '.'] then (if rooted then kept else seg :: kept) else below
    | [] => if rooted then [] else [seg]
  else seg :: kept

/-- The Go call `path.Clean(p)`. -/
def pathClean (p : String) : String :=
  if p = "" then "."
  else
    let rooted : Bool := p.data.head? = some '/'
    let segs := ((splitOnSlash p.data).foldl (cleanStep rooted) []).reverse
    let out := (if rooted then ['/'] else []) ++ ['/'].intercalate segs
    if out = [] then "." else String.mk out

/-- The Go call `path.Join(elems...)`: the non-empty elements joined with slashes,
cleaned; the empty string when there is none. -/
def pathJoin (elems : List String) : String :=
  match elems.filter (fun e => e ≠ "") with
  | [] => ""
  | e :: es => pathClean (String.mk (['/'].intercalate ((e :: es).map String.data)))

/-- The Go call `filepath.Base(p)` with the slash as separator: the last element of
the path, after removing trailing slashes; `.` for the empty path and `/` for a path
of slashes only. -/
def pathBase (p : String) : String :=
  if p = "" then "."
  else
    let trimmed := p.data.reverse.dropWhile (fun c => c = '/')
    let last := (trimmed.takeWhile (fun c => c ≠ '/')).reverse
    if last = [] then "/" else String.mk last

/-! ## Templates (`templates.go`) -/

/-- A Go `error` value of the templates manager: the package variable
`errNoTemplateSpecified` (compared by identity in the tests), an error made by
`fmt.Errorf` with the given text, or an error returned by `html/template`. -/
inductive GoError where
  | errNoTemplateSpecified
  | errorf (text : String)
  | external (text : String)
  deriving DecidableEq, Repr

/-- The method `Error()` of an error value. -/
def GoError.Error : GoError → String
  | .errNoTemplateSpecified => "no template file specified"
  | .errorf text => text
  | .external text => text

/-- The operations of the library `html/template` that the templates manager calls,
on templates of type `τ`: `parseFiles left right name files` stands for
`template.New(name).Delims(left, right).Funcs(funcMap).ParseFiles(files...)`,
`clone` for `Clone` and `parseInto` for `ParseFiles` on an existing template. Each
gives a template or an error. -/
structure TemplateLib (τ : Type) where
  parseFiles : String → String → String → List String → Except GoError τ
  clone : τ → Except GoError τ
  parseInto : τ → List String → Except GoError τ

/-- The Go struct `Templates`; `layouts` is `none` for the nil map of a value that
was not made by `NewTemplates`. The field `FuncMap` is part of `TemplateLib`. -/
structure Templates (τ : Type) where
  Path : String
  Suffix : String
  Delims : List String
  LayoutDir : String
  layouts : Option (List (String × τ))

/-- The function `NewTemplates`: the default options and an empty layouts map. -/
def NewTemplates (τ : Type) (path : String) : Templates τ :=
  { Path := path, Suffix := ".html", Delims := ["\x7b\x7b", "\x7d\x7d"],
    LayoutDir := "layouts", layouts := some [] }

/-- The lookup `ts.layouts[name]`, which finds nothing in the nil map. -/
def Templates.lookup {τ : Type} (ts : Templates τ) (name : String) : Option τ :=
  match ts.layouts with
  | none => none
  | some m => mapGet m name

/-- The method `Templates.New`: `none` stands for a run-time panic (an index out of range on
`ts.Delims`), otherwise the result is the template or the error. -/
def Templates.New {τ : Type} (lib : TemplateLib τ) (ts : Templates τ)
    (filenames : List String) : Option (Except GoError τ) :=
  match filenames with
  | [] => some (.error .errNoTemplateSpecified)
  | first :: _ =>
    match ts.Delims with
    | left :: right :: _ => some (lib.parseFiles left right (pathBase first) filenames)
    | _ => none

/-- The method `Templates.SetLayout`: `none` stands for a run-time panic (in `New`, or an
assignment to an entry of the nil map), otherwise the result is the templates
manager after the call and the returned error. `quote` is the rendering of a string
by the verb `%q` of `fmt`. -/
def Templates.SetLayout {τ : Type} (lib : TemplateLib τ) (quote : String → String)
    (ts : Templates τ) (filenames : List String) :
    Option (Templates τ × Option GoError) :=
  let files := filenames.map (fun filename =>
    pathJoin [ts.Path, ts.LayoutDir, filename ++ ts.Suffix])
  match ts.New lib files with
  | none => none
  | some (.error err) => some (ts, some err)
  | some (.ok layout) =>
    match files with
    | [] => none
    | first :: _ =>
      let name := pathBase first
      if (ts.lookup name).isSome then
        some (ts, some (.errorf ("the layout named " ++ quote name ++ " already exists")))
      else
        match ts.layouts with
        | none => none
        | some m => some ({ ts with layouts := some (mapSet m name layout) }, none)

/-- The key under which `SetLayout` registers a layout whose first file is given as
`first`: `filepath.Base(path.Join(ts.Path, ts.LayoutDir, first+ts.Suffix))`. -/
def Templates.layoutKey {τ : Type} (ts : Templates τ) (first : String) : String :=
  pathBase (pathJoin [ts.Path, ts.LayoutDir, first ++ ts.Suffix])

/-- The method `Templates.Layout`: the template (`none` for nil) and the error. -/
def Templates.Layout {τ : Type} (quote : String → String) (ts : Templates τ)
    (name : String) : Option τ × Option GoError :=
  match ts.lookup (name ++ ts.Suffix) with
  | some layout => (some layout, none)
  | none => (none, some (.errorf ("no layout named " ++ quote name)))

/-- The method `Templates.Filenames`: the paths of the templates below `ts.Path`. -/
def Templates.Filenames {τ : Type} (ts : Templates τ) (filenames : List String) :
    List String :=
  filenames.map (fun filename => pathJoin [ts.Path, filename ++ ts.Suffix])

/-- The method `Templates.Render`: the template (`none` for nil) and the error. -/
def Templates.Render {τ : Type} (lib : TemplateLib τ) (quote : String → String)
    (ts : Templates τ) (layoutName : String) (filenames : List String) :
    Option τ × Option GoError :=
  match filenames with
  | [] => (none, some .errNoTemplateSpecified)
  | _ :: _ =>
    match ts.Layout quote layoutName with
    | (_, some err) => (none, some err)
    | (none, none) => (none, none)
    | (some layout, none) =>
      match lib.clone layout with
      | .error err => (none, some err)
      | .ok cloned =>
        match lib.parseInto cloned (ts.Filenames filenames) with
        | .error err => (none, some err)
        | .ok t => (some t, none)

/-- A sample of `html/template` for evaluating the templates manager on concrete
inputs: a template is the list of the files it was parsed from, and exactly the
files of the given list exist. -/
def sampleLib (existing : List String) : TemplateLib (List String) where
  parseFiles := fun _ _ _ files =>
    match files.find? (fun f => f ∉ existing) with
    | some f => .error (.external ("open " ++ f ++ ": no such file or directory"))
    | none => .ok files
  clone := fun t => .ok t
  parseInto := fun t files =>
    match files.find? (fun f => f ∉ existing) with
    | some f => .error (.external ("open " ++ f ++ ": no such file or directory"))
    | none => .ok (t ++ files)

/-! ## Basic authentication (`middleware/basic_auth.go`) -/

section MapLemmas

variable {κ ν : Type} [DecidableEq κ]

lemma mapGet_mapSet_same (m : List (κ × ν)) (k : κ) (v : ν) :
    mapGet (mapSet m k v) k = some v := by
  induction m with
  | nil => simp [mapSet, mapGet]
  | cons p t ih =>
    obtain ⟨k', v'⟩ := p
    by_cases h : k' = k
    · simp [mapSet, mapGet, h]
    · simp [mapSet, mapGet, h, ih]

lemma mapGet_mapSet_other (m : List (κ × ν)) (k k₂ : κ) (v : ν) (hne : k ≠ k₂) :
    mapGet (mapSet m k v) k₂ = mapGet m k₂ := by
  induction m with
  | nil => simp [mapSet, mapGet, hne]
  | cons p t ih =>
    obtain ⟨k', v'⟩ := p
    by_cases h : k' = k
    · subst h
      simp [mapSet, mapGet, hne]
    · by_cases h₂ : k' = k₂
      · subst h₂
        simp [mapSet, mapGet, h]
      · simp [mapSet, mapGet, h, h₂, ih]

lemma mapGet_eq_none_iff (m : List (κ × ν)) (k : κ) :
    mapGet m k = none ↔ k ∉ mapKeys m := by
  induction m with
  | nil => simp [mapGet, mapKeys]
  | cons p t ih =>
    obtain ⟨k', v'⟩ := p
    by_cases h : k' = k
    · simp [mapGet, mapKeys, h]
    · have h' : ¬ k = k' := fun e => h e.symm
      simp only [mapKeys] at ih
      simp [mapGet, mapKeys, h, h', ih]

lemma mapKeys_mapSet_of_mem (m : List (κ × ν)) (k : κ) (v : ν) (hk : k ∈ mapKeys m) :
    mapKeys (mapSet m k v) = mapKeys m := by
  induction m with
  | nil => simp [mapKeys] at hk
  | cons p t ih =>
    obtain ⟨k', v'⟩ := p
    by_cases h : k' = k
    · simp [mapSet, mapKeys, h]
    · have hk' : k ∈ mapKeys t := by
        simp only [mapKeys, List.map_cons, List.mem_cons] at hk
        rcases hk with hk | hk
        · exact absurd hk.symm h
        · exact hk
      have := ih hk'
      simp only [mapKeys] at this
      simp [mapSet, mapKeys, h, this]

lemma mapKeys_mapSet_of_not_mem (m : List (κ × ν)) (k : κ) (v : ν)
    (hk : k ∉ mapKeys m) : mapKeys (mapSet m k v) = mapKeys m ++ [k] := by
  induction m with
  | nil => simp [mapSet, mapKeys]
  | cons p t ih =>
    obtain ⟨k', v'⟩ := p
    simp only [mapKeys, List.map_cons, List.mem_cons, not_or] at hk
    have h : ¬ k' = k := fun e => hk.1 e.symm
    have := ih hk.2
    simp only [mapKeys] at this
    simp [mapSet, mapKeys, h, this]

end MapLemmas

/-! ## Lemmas on joining and splitting address lists -/

lemma data_joinAddrs (L : List String) :
    (joinAddrs L).data = [','].intercalate (L.map String.data) := by
  induction L with
  | nil => rfl
  | cons a rest ih =>
    cases rest with
    | nil => simp [joinAddrs, List.intercalate]
    | cons b rest' =>
      have h : (joinAddrs (a :: b :: rest')).data =
          a.data ++ ',' :: (joinAddrs (b :: rest')).data := by
        simp [joinAddrs, String.data_append]
      rw [h, ih]
      simp [List.intercalate]

/-! ## Lemmas on the environment -/

lemma mapKeys_nodup_mapSet {κ ν : Type} [DecidableEq κ] (m : List (κ × ν)) (k : κ) (v : ν)
    (h : (mapKeys m).Nodup) : (mapKeys (mapSet m k v)).Nodup := by
  by_cases hk : k ∈ mapKeys m
  · rw [mapKeys_mapSet_of_mem m k v hk]
    exact h
  · rw [mapKeys_mapSet_of_not_mem m k v hk]
    exact List.Nodup.append h (List.nodup_singleton k) (by simpa using hk)

lemma mem_mapKeys_mapSet {κ ν : Type} [DecidableEq κ] (m : List (κ × ν)) (k x : κ) (v : ν) :
    x ∈ mapKeys (mapSet m k v) ↔ x ∈ mapKeys m ∨ x = k := by
  by_cases hk : k ∈ mapKeys m
  · rw [mapKeys_mapSet_of_mem m k v hk]
    constructor
    · exact fun h => Or.inl h
    · rintro (h | h)
      · exact h
      · exact h ▸ hk
  · rw [mapKeys_mapSet_of_not_mem m k v hk]
    simp

lemma mapKeys_nodup_buildOffsetsFrom (tbl : List (String × Nat)) (i : Nat) (L : List String)
    (h : (mapKeys tbl).Nodup) : (mapKeys (buildOffsetsFrom tbl i L)).Nodup := by
  induction L generalizing tbl i with
  | nil => exact h
  | cons a rest ih => exact ih _ _ (mapKeys_nodup_mapSet tbl a i h)

lemma mem_mapKeys_buildOffsetsFrom (tbl : List (String × Nat)) (i : Nat) (L : List String)
    (x : String) : x ∈ mapKeys (buildOffsetsFrom tbl i L) ↔ x ∈ mapKeys tbl ∨ x ∈ L := by
  induction L generalizing tbl i with
  | nil => simp [buildOffsetsFrom]
  | cons a rest ih =>
    simp only [buildOffsetsFrom, ih, mem_mapKeys_mapSet, List.mem_cons]
    tauto

lemma length_buildOffsetTable (L : List String) :
    (BuildOffsetTable L).length = L.dedup.length := by
  have hnd : (mapKeys (BuildOffsetTable L)).Nodup :=
    mapKeys_nodup_buildOffsetsFrom [] 0 L (by simp [mapKeys])
  have hmem : ∀ x, x ∈ mapKeys (BuildOffsetTable L) ↔ x ∈ L.dedup := by
    intro x
    rw [List.mem_dedup]
    unfold BuildOffsetTable
    rw [mem_mapKeys_buildOffsetsFrom]
    simp [mapKeys]
  have hperm : (mapKeys (BuildOffsetTable L)).Perm L.dedup :=
    (List.perm_ext_iff_of_nodup hnd (List.nodup_dedup L)).2 hmem
  have hlen := hperm.length_eq
  simpa [mapKeys] using hlen

lemma mapGet_buildOffsetsFrom_of_not_mem (tbl : List (String × Nat)) (i : Nat)
    (L : List String) (a : String) (h : a ∉ L) :
    mapGet (buildOffsetsFrom tbl i L) a = mapGet tbl a := by
  induction L generalizing tbl i with
  | nil => rfl
  | cons b rest ih =>
    simp only [List.mem_cons, not_or] at h
    simp only [buildOffsetsFrom]
    rw [ih _ _ h.2]
    exact mapGet_mapSet_other tbl b a i (fun e => h.1 e.symm)

lemma mapGet_buildOffsetsFrom_last (tbl : List (String × Nat)) (i : Nat) (L : List String)
    (j : Nat) (hj : j < L.length)
    (hlast : ∀ k (hk : k < L.length), j < k → L.get ⟨k, hk⟩ ≠ L.get ⟨j, hj⟩) :
    mapGet (buildOffsetsFrom tbl i L) (L.get ⟨j, hj⟩) = some (i + j) := by
  induction L generalizing tbl i j with
  | nil => exact absurd hj (Nat.not_lt_zero _)
  | cons a rest ih =>
    cases j with
    | zero =>
      have hnot : a ∉ rest := by
        intro hmem
        obtain ⟨n, hn, hget⟩ := List.getElem_of_mem hmem
        exact hlast (n + 1) (by simpa using hn) (Nat.succ_pos _) (by simpa using hget)
      simp only [buildOffsetsFrom, List.get_eq_getElem, List.getElem_cons_zero]
      rw [mapGet_buildOffsetsFrom_of_not_mem _ _ _ _ hnot]
      simpa using mapGet_mapSet_same tbl a i
    | succ j' =>
      have hj' : j' < rest.length := by simpa using hj
      have hlast' : ∀ k (hk : k < rest.length), j' < k →
          rest.get ⟨k, hk⟩ ≠ rest.get ⟨j', hj'⟩ := by
        intro k hk hlt
        have := hlast (k + 1) (by simpa using hk) (by omega)
        simpa using this
      have := ih (mapSet tbl a i) (i + 1) j' hj' hlast'
      simp only [buildOffsetsFrom, List.get_eq_getElem, List.getElem_cons_succ]
      simp only [List.get_eq_getElem] at this
      rw [this]
      congr 1
      omega

lemma exists_last_occurrence (L : List String) (a : String) (h : a ∈ L) :
    ∃ k, ∃ hk : k < L.length, L.get ⟨k, hk⟩ = a ∧
      ∀ n (hn : n < L.length), k < n → L.get ⟨n, hn⟩ ≠ a := by
  induction L with
  | nil => simp at h
  | cons b rest ih =>
    by_cases hr : a ∈ rest
    · obtain ⟨k, hk, hget, hlast⟩ := ih hr
      refine ⟨k + 1, by simpa using hk, by simpa using hget, ?_⟩
      intro n hn hlt
      cases n with
      | zero => omega
      | succ n' =>
        have := hlast n' (by simpa using hn) (by omega)
        simpa using this
    · have hab : a = b := by
        simp only [List.mem_cons] at h
        rcases h with h | h
        · exact h
        · exact absurd h hr
      subst hab
      refine ⟨0, by simp, by simp, ?_⟩
      intro n hn hlt
      cases n with
      | zero => omega
      | succ n' =>
        intro heq
        apply hr
        have hn' : n' < rest.length := by simpa using hn
        have : rest[n'] = a := by simpa using heq
        exact this ▸ List.getElem_mem hn'

lemma mapGet_buildOffsetTable_iff (L : List String) (i : Nat) (h : i < L.length) :
    mapGet (BuildOffsetTable L) (L.get ⟨i, h⟩) = some i ↔
      ∀ j (hj : j < L.length), i < j → L.get ⟨j, hj⟩ ≠ L.get ⟨i, h⟩ := by
  constructor
  · intro hget j hj hlt heq
    obtain ⟨k, hk, hka, hlast⟩ :=
      exists_last_occurrence L (L.get ⟨i, h⟩) (List.get_mem L i h)
    have hlast' : ∀ n (hn : n < L.length), k < n → L.get ⟨n, hn⟩ ≠ L.get ⟨k, hk⟩ := by
      intro n hn hlt'
      rw [hka]
      exact hlast n hn hlt'
    have hk_val := mapGet_buildOffsetsFrom_last [] 0 L k hk hlast'
    rw [hka] at hk_val
    unfold BuildOffsetTable at hget
    rw [hget] at hk_val
    have hik : i = k := by
      have := Option.some.inj hk_val
      omega
    subst hik
    exact hlast j hj hlt heq
  · intro hlast
    have := mapGet_buildOffsetsFrom_last [] 0 L i h hlast
    simpa [BuildOffsetTable] using this

lemma setSignalAction_ok (d : SignalDecls) (reg : Registry) (sig : Signal)
    (action : SignalAction) (hs : sig ≠ SIGTERM)
    (ha : action = d.SigRestart ∨ action = d.SigIgnore) :
    SetSignalAction d reg sig action = (mapSet reg sig action, none) := by
  have h1 : ¬ (action ≠ d.SigRestart ∧ action ≠ d.SigIgnore) := by
    rintro ⟨h₁, h₂⟩
    rcases ha with ha | ha
    · exact h₁ ha
    · exact h₂ ha
  simp only [SetSignalAction, if_neg h1, if_neg hs]

lemma setSignalAction_sigterm (d : SignalDecls) (reg : Registry) (sig : Signal)
    (action : SignalAction) :
    mapGet (SetSignalAction d reg sig action).1 SIGTERM = mapGet reg SIGTERM := by
  unfold SetSignalAction
  split_ifs with h1 h2
  · rfl
  · rfl
  · exact mapGet_mapSet_other reg sig SIGTERM action h2

lemma applyCalls_append (d : SignalDecls) (reg : Registry)
    (xs ys : List (Signal × SignalAction)) :
    applyCalls d reg (xs ++ ys) = applyCalls d (applyCalls d reg xs) ys := by
  induction xs generalizing reg with
  | nil => rfl
  | cons c rest ih => simp [applyCalls, ih]

lemma applyCalls_untouched (d : SignalDecls) (reg : Registry)
    (calls : List (Signal × SignalAction)) (s : Signal)
    (hok : ∀ c ∈ calls, c.1 ≠ SIGTERM ∧ (c.2 = d.SigRestart ∨ c.2 = d.SigIgnore))
    (hs : ∀ c ∈ calls, c.1 ≠ s) :
    mapGet (applyCalls d reg calls) s = mapGet reg s := by
  induction calls generalizing reg with
  | nil => rfl
  | cons c rest ih =>
    have hc := hok c (List.mem_cons_self _ _)
    have hrest : ∀ c' ∈ rest, c'.1 ≠ SIGTERM ∧ (c'.2 = d.SigRestart ∨ c'.2 = d.SigIgnore) :=
      fun c' h' => hok c' (List.mem_cons_of_mem _ h')
    have hsrest : ∀ c' ∈ rest, c'.1 ≠ s := fun c' h' => hs c' (List.mem_cons_of_mem _ h')
    simp only [applyCalls]
    rw [ih _ hrest hsrest, setSignalAction_ok d reg c.1 c.2 hc.1 hc.2]
    exact mapGet_mapSet_other reg c.1 s c.2 (hs c (List.mem_cons_self _ _))

/-- C1: for every signal other than SIGTERM and every action among SigRestart and
SigIgnore, SetSignalAction returns nil whatever the registry; after any sequence of
such calls the action looked up for a signal is the one of the most recent call for
that signal, and a signal that no call names keeps the action it had. -/
theorem setSignalAction_last_write_wins (d : SignalDecls) (reg : Registry)
    (calls : List (Signal × SignalAction))
    (hok : ∀ c ∈ calls, c.1 ≠ SIGTERM ∧ (c.2 = d.SigRestart ∨ c.2 = d.SigIgnore)) :
    (∀ c ∈ calls, ∀ r : Registry, (SetSignalAction d r c.1 c.2).2 = none) ∧
    (∀ (s : Signal) (a : SignalAction) (before after : List (Signal × SignalAction)),
      calls = before ++ (s, a) :: after → (∀ c ∈ after, c.1 ≠ s) →
      mapGet (applyCalls d reg calls) s = some a) ∧
    (∀ s : Signal, (∀ c ∈ calls, c.1 ≠ s) →
      mapGet (applyCalls d reg calls) s = mapGet reg s) := by
  refine ⟨?_, ?_, ?_⟩
  · intro c hc r
    rw [setSignalAction_ok d r c.1 c.2 (hok c hc).1 (hok c hc).2]
  · intro s a before after hsplit hafter
    subst hsplit
    have hsa := hok (s, a) (by simp)
    have hafter_ok : ∀ c ∈ after,
        c.1 ≠ SIGTERM ∧ (c.2 = d.SigRestart ∨ c.2 = d.SigIgnore) :=
      fun c hc => hok c (by simp [hc])
    rw [applyCalls_append]
    simp only [applyCalls]
    rw [applyCalls_untouched d _ after s hafter_ok hafter,
      setSignalAction_ok d _ s a hsa.1 hsa.2]
    exact mapGet_mapSet_same _ s a
  · intro s hs
    exact applyCalls_untouched d reg calls s hok hs

/-- Witness for C1: SIGHUP is set to restart, SIGUSR1 to restart, then SIGHUP to
ignore, starting from a registry that maps SIGUSR2 to restart; SIGHUP ends up with
the action of the later call. -/
theorem setSignalAction_last_write_wins_witness :
    mapGet (applyCalls sampleDecls [(12, 1)] [(1, 1), (10, 1), (1, 0)]) 1 = some 0 :=
  (setSignalAction_last_write_wins sampleDecls [(12, 1)] [(1, 1), (10, 1), (1, 0)]
    (by decide)).2.1 1 0 [(1, 1), (10, 1)] [] rfl (by simp)

/-- C2: for the reserved signal SIGTERM and every action value, valid or not,
SetSignalAction returns a non-nil error and leaves the registry as it was; for a
valid action the error text is "the signal <name of SIGTERM> is not allow to custom";
and after any sequence of calls whatever, the registry holds for SIGTERM what it held
before, so SIGTERM never acquires an action. -/
theorem setSignalAction_reserved (d : SignalDecls) (reg : Registry)
    (action : SignalAction) :
    (SetSignalAction d reg SIGTERM action).2 ≠ none ∧
    (SetSignalAction d reg SIGTERM action).1 = reg ∧
    ((action = d.SigRestart ∨ action = d.SigIgnore) →
      (SetSignalAction d reg SIGTERM action).2 =
        some ("the signal " ++ d.sigName SIGTERM ++ " is not allow to custom")) ∧
    (∀ calls : List (Signal × SignalAction),
      mapGet (applyCalls d reg calls) SIGTERM = mapGet reg SIGTERM) := by
  refine ⟨?_, ?_, ?_, ?_⟩
  · by_cases h : action ≠ d.SigRestart ∧ action ≠ d.SigIgnore
    · simp [SetSignalAction, if_pos h]
    · simp [SetSignalAction, if_neg h]
  · by_cases h : action ≠ d.SigRestart ∧ action ≠ d.SigIgnore
    · simp [SetSignalAction, if_pos h]
    · simp [SetSignalAction, if_neg h]
  · intro ha
    have h1 : ¬ (action ≠ d.SigRestart ∧ action ≠ d.SigIgnore) := by
      rintro ⟨h₁, h₂⟩
      rcases ha with ha | ha
      · exact h₁ ha
      · exact h₂ ha
    simp only [SetSignalAction, if_neg h1, if_true]
  · intro calls
    induction calls generalizing reg with
    | nil => rfl
    | cons c rest ih =>
      simp only [applyCalls]
      rw [ih, setSignalAction_sigterm]

/-- Witness for C2: setting SIGTERM to restart on the empty registry gives the error
text of the test, with the Linux name of the signal. -/
theorem setSignalAction_reserved_witness :
    (SetSignalAction sampleDecls [] SIGTERM 1).2 =
      some "the signal terminated is not allow to custom" :=
  (setSignalAction_reserved sampleDecls [] 1).2.2.1 (by decide)

/-- C3: for every signal and every action value outside SigRestart and SigIgnore,
SetSignalAction returns a non-nil error, which for a signal that is not reserved has
the text "invalid signal action: <value>", and the registry after the call is the
registry before it, so every lookup gives what it gave before. -/
theorem setSignalAction_invalid_action (d : SignalDecls) (reg : Registry)
    (sig : Signal) (action : SignalAction)
    (h₁ : action ≠ d.SigRestart) (h₂ : action ≠ d.SigIgnore) :
    (SetSignalAction d reg sig action).2 ≠ none ∧
    (sig ≠ SIGTERM → (SetSignalAction d reg sig action).2 =
      some ("invalid signal action: " ++ toString action)) ∧
    (SetSignalAction d reg sig action).1 = reg ∧
    (∀ s : Signal, mapGet (SetSignalAction d reg sig action).1 s = mapGet reg s) := by
  have h : action ≠ d.SigRestart ∧ action ≠ d.SigIgnore := ⟨h₁, h₂⟩
  simp [SetSignalAction, if_pos h]

/-- Witness for C3: the action -1 for SIGINT, on a registry that maps SIGINT to
restart, gives the error text of the test and keeps the registered action. -/
theorem setSignalAction_invalid_action_witness :
    (SetSignalAction sampleDecls [(2, 1)] 2 (-1)).2 = some "invalid signal action: -1" ∧
    mapGet (SetSignalAction sampleDecls [(2, 1)] 2 (-1)).1 2 = some 1 :=
  ⟨(setSignalAction_invalid_action sampleDecls [(2, 1)] 2 (-1) (by decide)
      (by decide)).2.1 (by decide),
    (setSignalAction_invalid_action sampleDecls [(2, 1)] 2 (-1) (by decide)
      (by decide)).2.2.2 2⟩

/-! ## Lemmas on reading the environment -/

/-- C6: in a fresh-launch process initEnv (BuildChildEnvironment) yields the base
environment followed by exactly two entries, "GEM_GRACEFUL_RESTART=true" and then
"GEM_SERVER_ADDRS=" followed by the comma-join of the address list, which is the
intercalation of the addresses with "," in list order; the entries of the base
environment keep their positions; for the reversed list the emitted string is the
join of the reversed list; and for [":8080", ":8081"] on the empty environment the
result is ["GEM_GRACEFUL_RESTART=true", "GEM_SERVER_ADDRS=:8080,:8081"]. -/
theorem initEnv_fresh (env : List String) (L : List String) :
    initEnv false env L =
      env ++ ["GEM_GRACEFUL_RESTART=true", "GEM_SERVER_ADDRS=" ++ joinAddrs L] ∧
    BuildChildEnvironment env L = initEnv false env L ∧
    (joinAddrs L).data = [','].intercalate (L.map String.data) ∧
    (initEnv false env L).length = env.length + 2 ∧
    (∀ i, i < env.length → (initEnv false env L)[i]? = env[i]?) ∧
    initEnv false env L.reverse =
      env ++ ["GEM_GRACEFUL_RESTART=true", "GEM_SERVER_ADDRS=" ++ joinAddrs L.reverse] ∧
    initEnv false [] [":8080", ":8081"] =
      ["GEM_GRACEFUL_RESTART=true", "GEM_SERVER_ADDRS=:8080,:8081"] := by
  refine ⟨rfl, rfl, data_joinAddrs L, ?_, ?_, rfl, by decide⟩
  · simp [initEnv]
  · intro i hi
    simp only [initEnv, Bool.false_eq_true, if_false]
    exact List.getElem?_append_left hi

/-- Witness for C6: the entry of the base environment stays at position 0. -/
theorem initEnv_fresh_witness :
    (initEnv false ["PATH=/bin"] [":8081", ":8080"])[0]? = some "PATH=/bin" :=
  (initEnv_fresh ["PATH=/bin"] [":8081", ":8080"]).2.2.2.2.1 0 (by decide)

/-- C9, as stated, fails: for the list [":8080", ":8080"] the table has a single
entry, which maps ":8080" to 1; the offset 0 of the occurrence at position 0 is
overwritten by the later occurrence of the same address. -/
theorem buildOffsetTable_duplicate_counterexample :
    BuildOffsetTable [":8080", ":8080"] = [(":8080", 1)] ∧
    mapGet (BuildOffsetTable [":8080", ":8080"]) ":8080" = some 1 ∧
    (BuildOffsetTable [":8080", ":8080"]).length = 1 := by
  decide

/-- C9, amended: BuildOffsetTable assigns offsets by list position into a table keyed
by address, so for every address list the occurrence at position i has offset i in
the table exactly when no later position holds the same address (an address that
occurs more than once keeps the offset of its last occurrence only), and the table
has one entry per distinct address. -/
theorem buildOffsetTable_duplicates (L : List String) :
    (∀ i (h : i < L.length),
      (mapGet (BuildOffsetTable L) (L.get ⟨i, h⟩) = some i ↔
        ∀ j (hj : j < L.length), i < j → L.get ⟨j, hj⟩ ≠ L.get ⟨i, h⟩)) ∧
    (BuildOffsetTable L).length = L.dedup.length :=
  ⟨fun i h => mapGet_buildOffsetTable_iff L i h, length_buildOffsetTable L⟩

/-- Witness for C9: in [":8080", ":4343", ":8080"] the occurrence of ":4343" at
position 1 is the last one of its address and has offset 1. -/
theorem buildOffsetTable_duplicates_witness :
    mapGet (BuildOffsetTable [":8080", ":4343", ":8080"]) ":4343" = some 1 :=
  ((buildOffsetTable_duplicates [":8080", ":4343", ":8080"]).1 1 (by decide)).2
    (by decide)

/-- C12: for every server state the engine flag DisableKeepalive is true after
stop(), whatever it was before and whatever listeners are open; so it is for a
freshly constructed server, on any address and on the empty one. -/
theorem stop_disables_keepalive :
    (∀ srv : Server, (stop srv).DisableKeepalive = true) ∧
    (∀ (flag : Bool) (listeners : List String) (inflight : Nat),
      (stop { DisableKeepalive := flag, listeners := listeners,
              inflight := inflight }).DisableKeepalive = true) ∧
    (∀ addr : String, (stop (New addr)).DisableKeepalive = true) ∧
    (New "").DisableKeepalive = false ∧
    (stop (New "")).DisableKeepalive = true :=
  ⟨fun _ => rfl, fun _ _ _ => rfl, fun _ => rfl, rfl, rfl⟩

/-- The invariant of the restart coordinator: no cycle and no child in `Idle`, one
cycle and no child yet in `Spawning`, one cycle and one child afterwards. -/
lemma coordinator_invariant (events : List RestartEvent) (c : Coordinator)
    (h : (c.state = .Idle ∧ c.cycles = 0 ∧ c.children = 0) ∨
      (c.state = .Spawning ∧ c.cycles = 1 ∧ c.children = 0) ∨
      (c.state ≠ .Idle ∧ c.state ≠ .Spawning ∧ c.cycles = 1 ∧ c.children = 1)) :
    ((c.run events).state = .Idle ∧ (c.run events).cycles = 0 ∧
        (c.run events).children = 0) ∨
      ((c.run events).state = .Spawning ∧ (c.run events).cycles = 1 ∧
        (c.run events).children = 0) ∨
      ((c.run events).state ≠ .Idle ∧ (c.run events).state ≠ .Spawning ∧
        (c.run events).cycles = 1 ∧ (c.run events).children = 1) := by
  induction events generalizing c with
  | nil => exact h
  | cons e rest ih =>
    apply ih
    obtain ⟨st, cy, ch⟩ := c
    cases e <;> cases st <;> simp_all [Coordinator.step]

/-- C13: in the restart state machine a Restart action delivered in a state other
than Idle leaves the coordinator as it is: the state, the number of cycles in flight
and the number of spawned children are unchanged; from Idle it begins a cycle. After
any sequence of events from the initial coordinator at most one restart cycle and at
most one spawned child are in flight, and the sequence Restart, Spawned, ChildReady,
Drained leads through the states to Stopped. -/
theorem restart_single_cycle :
    (∀ c : Coordinator, c.state ≠ .Idle → c.step .Restart = c) ∧
    (∀ c : Coordinator, c.state = .Idle →
      c.step .Restart = { c with state := .Spawning, cycles := c.cycles + 1 }) ∧
    (∀ events : List RestartEvent,
      (Coordinator.init.run events).cycles ≤ 1 ∧
      (Coordinator.init.run events).children ≤ 1) ∧
    (∀ events : List RestartEvent,
      (Coordinator.init.run (events ++ [.Restart])).children =
        (Coordinator.init.run events).children) ∧
    Coordinator.init.run [.Restart] = ⟨.Spawning, 1, 0⟩ ∧
    Coordinator.init.run [.Restart, .Spawned] = ⟨.AwaitingChildReady, 1, 1⟩ ∧
    Coordinator.init.run [.Restart, .Spawned, .ChildReady] = ⟨.Draining, 1, 1⟩ ∧
    Coordinator.init.run [.Restart, .Spawned, .ChildReady, .Drained] = ⟨.Stopped, 1, 1⟩ := by
  have hrun : ∀ (events : List RestartEvent) (c : Coordinator) (e : RestartEvent),
      c.run (events ++ [e]) = (c.run events).step e := by
    intro events
    induction events with
    | nil => intro c e; rfl
    | cons x rest ih => intro c e; simp [Coordinator.run, ih]
  refine ⟨?_, ?_, ?_, ?_, rfl, rfl, rfl, rfl⟩
  · intro c h
    obtain ⟨st, cy, ch⟩ := c
    cases st <;> simp_all [Coordinator.step]
  · intro c h
    obtain ⟨st, cy, ch⟩ := c
    cases st <;> simp_all [Coordinator.step]
  · intro events
    have := coordinator_invariant events Coordinator.init (Or.inl ⟨rfl, rfl, rfl⟩)
    omega
  · intro events
    rw [hrun]
    generalize Coordinator.init.run events = c
    obtain ⟨st, cy, ch⟩ := c
    cases st <;> simp [Coordinator.step]

/-- Witness for C13: a second Restart while the child is awaited changes nothing. -/
theorem restart_single_cycle_witness :
    (Coordinator.mk .AwaitingChildReady 1 1).step .Restart =
      Coordinator.mk .AwaitingChildReady 1 1 :=
  restart_single_cycle.1 (Coordinator.mk .AwaitingChildReady 1 1) (by decide)

/-! ## Components -/

lemma setComponent_new {γ : Type} (quote : String → String) (components : Components γ)
    (name : String) (c : Option γ) (h : hasComponent components name = false) :
    (SetComponent quote components name c).2 = none ∧
    Component (SetComponent quote components name c).1 name = c ∧
    hasComponent (SetComponent quote components name c).1 name = true := by
  cases components with
  | none => simp [SetComponent, Component, hasComponent, mapGet, mapSet]
  | some m =>
    simp only [hasComponent] at h
    simp [SetComponent, Component, hasComponent, h, mapGet_mapSet_same]

lemma setComponent_existing {γ : Type} (quote : String → String)
    (components : Components γ) (name : String) (c : Option γ)
    (h : hasComponent components name = true) :
    SetComponent quote components name c =
      (components, some ("the component named " ++ quote name ++ " already exists")) := by
  cases components with
  | none => simp [hasComponent] at h
  | some m =>
    simp only [hasComponent] at h
    simp [SetComponent, h]

lemma setComponent_other {γ : Type} (quote : String → String) (components : Components γ)
    (name other : String) (c : Option γ) (hne : name ≠ other) :
    Component (SetComponent quote components name c).1 other = Component components other ∧
    hasComponent (SetComponent quote components name c).1 other =
      hasComponent components other := by
  cases hs : hasComponent components name with
  | true => rw [setComponent_existing quote components name c hs]; exact ⟨rfl, rfl⟩
  | false =>
    cases components with
    | none =>
      simp [SetComponent, Component, hasComponent, mapGet, mapSet, hne]
    | some m =>
      simp only [hasComponent] at hs
      simp [SetComponent, Component, hasComponent, hs, mapGet_mapSet_other m name other c hne]

lemma setComponents_untouched {γ : Type} (quote : String → String)
    (calls : List (String × Option γ)) (components : Components γ) (name : String)
    (h : ∀ x ∈ calls, x.1 ≠ name) :
    Component (setComponents quote components calls) name = Component components name ∧
    hasComponent (setComponents quote components calls) name =
      hasComponent components name := by
  induction calls generalizing components with
  | nil => exact ⟨rfl, rfl⟩
  | cons x rest ih =>
    have hx := h x (List.mem_cons_self _ _)
    have hrest := ih (SetComponent quote components x.1 x.2).1
      (fun y hy => h y (List.mem_cons_of_mem _ hy))
    have hstep := setComponent_other quote components x.1 name x.2 hx
    simp only [setComponents]
    exact ⟨hrest.1.trans hstep.1, hrest.2.trans hstep.2⟩

lemma setComponents_existing {γ : Type} (quote : String → String)
    (calls : List (String × Option γ)) (components : Components γ) (name : String)
    (h : hasComponent components name = true) :
    Component (setComponents quote components calls) name = Component components name ∧
    hasComponent (setComponents quote components calls) name = true := by
  induction calls generalizing components with
  | nil => exact ⟨rfl, h⟩
  | cons x rest ih =>
    simp only [setComponents]
    by_cases hx : x.1 = name
    · have hx' : hasComponent components x.1 = true := by rw [hx]; exact h
      rw [setComponent_existing quote components x.1 x.2 hx']
      exact ih components h
    · have hstep := setComponent_other quote components x.1 name x.2 hx
      have hrest := ih (SetComponent quote components x.1 x.2).1 (hstep.2.trans h)
      exact ⟨hrest.1.trans hstep.1, hrest.2⟩

lemma setComponents_append {γ : Type} (quote : String → String)
    (xs ys : List (String × Option γ)) (components : Components γ) :
    setComponents quote components (xs ++ ys) =
      setComponents quote (setComponents quote components xs) ys := by
  induction xs generalizing components with
  | nil => rfl
  | cons x rest ih => simp [setComponents, ih]

/-- C14: SetComponent(name, c) returns nil exactly when no component is stored under
the name, and then stores c under it and leaves every other name as it was; when one
is stored it returns the error "the component named <name in %q> already exists" and
leaves the components unchanged. Hence, over every sequence of SetComponent calls, a
name that has a component keeps it, a name without one gets the component of the
first call for that name, and a name that no call sets keeps what Component returned
before: nil when it was never set, also on the nil map of a zero-value
Application. -/
theorem setComponent_first_wins {γ : Type} (quote : String → String)
    (components : Components γ) :
    (∀ (name : String) (c : Option γ),
      ((SetComponent quote components name c).2 = none ↔
        hasComponent components name = false)) ∧
    (∀ (name : String) (c : Option γ), hasComponent components name = false →
      Component (SetComponent quote components name c).1 name = c ∧
      ∀ other : String, name ≠ other →
        Component (SetComponent quote components name c).1 other =
          Component components other) ∧
    (∀ (name : String) (c : Option γ), hasComponent components name = true →
      SetComponent quote components name c =
        (components, some ("the component named " ++ quote name ++ " already exists"))) ∧
    (∀ (calls : List (String × Option γ)) (name : String),
      hasComponent components name = true →
      Component (setComponents quote components calls) name = Component components name) ∧
    (∀ (before after : List (String × Option γ)) (name : String) (c : Option γ),
      hasComponent components name = false → (∀ x ∈ before, x.1 ≠ name) →
      Component (setComponents quote components (before ++ (name, c) :: after)) name = c) ∧
    (∀ (calls : List (String × Option γ)) (name : String),
      (∀ x ∈ calls, x.1 ≠ name) →
      Component (setComponents quote components calls) name = Component components name) ∧
    (∀ name : String, hasComponent components name = false →
      Component components name = none) ∧
    (∀ name : String, Component (none : Components γ) name = none) := by
  refine ⟨?_, ?_, ?_, ?_, ?_, ?_, ?_, fun _ => rfl⟩
  · intro name c
    cases hs : hasComponent components name with
    | true => rw [setComponent_existing quote components name c hs]; simp
    | false => simp [(setComponent_new quote components name c hs).1]
  · intro name c h
    exact ⟨(setComponent_new quote components name c h).2.1,
      fun other hne => (setComponent_other quote components name other c hne).1⟩
  · intro name c h
    exact setComponent_existing quote components name c h
  · intro calls name h
    exact (setComponents_existing quote calls components name h).1
  · intro before after name c h hbefore
    rw [setComponents_append]
    simp only [setComponents]
    have hpre := setComponents_untouched quote before components name hbefore
    have hnew := setComponent_new quote (setComponents quote components before) name c
      (hpre.2.trans h)
    rw [(setComponents_existing quote after _ name hnew.2.2).1]
    exact hnew.2.1
  · intro calls name h
    exact (setComponents_untouched quote calls components name h).1
  · intro name h
    cases components with
    | none => rfl
    | some m =>
      simp only [hasComponent] at h
      cases hm : mapGet m name with
      | none => simp [Component, hm]
      | some v => simp [hm] at h

/-- Witness for C14: on a zero-value Application, "db" is set twice and "cache" once;
Component("db") is the component of the first call. -/
theorem setComponent_first_wins_witness :
    Component (setComponents sampleQuote (none : Components String)
      ([("cache", some "c")] ++ ("db", some "db") :: [("db", some "another")])) "db" =
      some "db" ∧
    SetComponent sampleQuote (some [("db", some "db")]) "db" (some "another") =
      (some [("db", some "db")], some "the component named \"db\" already exists") :=
  ⟨(setComponent_first_wins sampleQuote (none : Components String)).2.2.2.2.1
      [("cache", some "c")] [("db", some "another")] "db" (some "db") rfl (by decide),
    (setComponent_first_wins sampleQuote (some [("db", some "db")])).2.2.1
      "db" (some "another") (by decide)⟩

/-! ## Init and close callbacks -/

lemma init_of_all_nil {σ : Type} (cbs : List (ApplicationCallback σ)) (s : σ)
    (h : ∀ o ∈ outcomes cbs s, o = none) : Init cbs s = (invokeAll cbs s, none) := by
  induction cbs generalizing s with
  | nil => rfl
  | cons cb rest ih =>
    have h0 : (cb s).2 = none := h _ (by simp [outcomes])
    have hrest : ∀ o ∈ outcomes rest (cb s).1, o = none :=
      fun o ho => h o (by simp [outcomes, ho])
    have hcb : cb s = ((cb s).1, none) := by rw [← h0]
    unfold Init
    rw [hcb]
    simp only [invokeAll]
    exact ih (cb s).1 hrest

lemma init_append_failure {σ : Type} (before after : List (ApplicationCallback σ))
    (cb : ApplicationCallback σ) (s : σ) (err : String)
    (hbefore : ∀ o ∈ outcomes before s, o = none)
    (hcb : (cb (invokeAll before s)).2 = some err) :
    Init (before ++ cb :: after) s = ((cb (invokeAll before s)).1, some err) := by
  induction before generalizing s with
  | nil =>
    have h : cb s = ((cb s).1, some err) := by
      simp only [invokeAll] at hcb
      rw [← hcb]
    simp only [List.nil_append, invokeAll]
    unfold Init
    rw [h]
  | cons x rest ih =>
    have h0 : (x s).2 = none := hbefore _ (by simp [outcomes])
    have hrest : ∀ o ∈ outcomes rest (x s).1, o = none :=
      fun o ho => hbefore o (by simp [outcomes, ho])
    have hx : x s = ((x s).1, none) := by rw [← h0]
    simp only [List.cons_append, invokeAll]
    unfold Init
    rw [hx]
    exact ih (x s).1 hrest hcb

lemma init_nil_iff {σ : Type} (cbs : List (ApplicationCallback σ)) (s : σ) :
    (Init cbs s).2 = none ↔ ∀ o ∈ outcomes cbs s, o = none := by
  induction cbs generalizing s with
  | nil => simp [Init, outcomes]
  | cons cb rest ih =>
    cases hcb : cb s with
    | mk s' r =>
      cases r with
      | none =>
        have : Init (cb :: rest) s = Init rest s' := by
          simp only [Init, hcb]
        rw [this, ih s']
        simp [outcomes, hcb]
      | some err =>
        have : Init (cb :: rest) s = (s', some err) := by
          simp only [Init, hcb]
        rw [this]
        simp [outcomes, hcb]

lemma closeLoop_eq {σ : Type} (cbs : List (ApplicationCallback σ)) (s : σ)
    (errs : List String) :
    closeLoop cbs s errs = (invokeAll cbs s, errs ++ (outcomes cbs s).reduceOption) := by
  induction cbs generalizing s errs with
  | nil => simp [closeLoop, invokeAll, outcomes]
  | cons cb rest ih =>
    cases hcb : cb s with
    | mk s' r =>
      cases r with
      | none =>
        unfold closeLoop
        rw [hcb]
        simp [ih, invokeAll, outcomes, hcb, List.reduceOption_cons_of_none]
      | some err =>
        unfold closeLoop
        rw [hcb]
        simp [ih, invokeAll, outcomes, hcb, List.reduceOption_cons_of_some]

lemma reduceOption_eq_nil {α : Type} (l : List (Option α)) :
    l.reduceOption = [] ↔ ∀ o ∈ l, o = none := by
  induction l with
  | nil => simp
  | cons o rest ih =>
    cases o with
    | none => simp [List.reduceOption_cons_of_none, ih]
    | some a => simp [List.reduceOption_cons_of_some]

lemma length_outcomes {σ : Type} (cbs : List (ApplicationCallback σ)) (s : σ) :
    (outcomes cbs s).length = cbs.length := by
  induction cbs generalizing s with
  | nil => rfl
  | cons cb rest ih => simp [outcomes, ih]

/-- C15: Application.Init invokes the callbacks in registration order: when the
callbacks before one callback all return nil and that one returns an error, Init
returns that error and the state of the program is the one right after that
callback, whatever callbacks are registered after it (none of them is invoked); Init
returns nil if and only if every callback, invoked in order, returns nil, the state
then being the one after all of them; with no callback it returns nil. -/
theorem init_first_failure {σ : Type} (cbs : List (ApplicationCallback σ)) (s : σ) :
    (∀ (before after : List (ApplicationCallback σ)) (cb : ApplicationCallback σ)
        (err : String), cbs = before ++ cb :: after →
      (∀ o ∈ outcomes before s, o = none) → (cb (invokeAll before s)).2 = some err →
      Init cbs s = ((cb (invokeAll before s)).1, some err)) ∧
    ((Init cbs s).2 = none ↔ ∀ o ∈ outcomes cbs s, o = none) ∧
    ((Init cbs s).2 = none → (Init cbs s).1 = invokeAll cbs s) ∧
    Init ([] : List (ApplicationCallback σ)) s = (s, none) := by
  refine ⟨?_, init_nil_iff cbs s, ?_, rfl⟩
  · intro before after cb err hsplit hbefore hcb
    rw [hsplit]
    exact init_append_failure before after cb s err hbefore hcb
  · intro h
    rw [init_of_all_nil cbs s ((init_nil_iff cbs s).1 h)]

/-- Witness for C15: three callbacks that log their invocation; the second fails, the
third is not invoked. -/
theorem init_first_failure_witness :
    Init [fun log => (log ++ ["first"], none),
          fun log => (log ++ ["second"], some "errCallback"),
          fun log => (log ++ ["third"], none)] ([] : List String) =
      (["first", "second"], some "errCallback") :=
  (init_first_failure [fun log => (log ++ ["first"], none),
      fun log => (log ++ ["second"], some "errCallback"),
      fun log => (log ++ ["third"], none)] ([] : List String)).1
    [fun log => (log ++ ["first"], none)] [fun log => (log ++ ["third"], none)]
    (fun log => (log ++ ["second"], some "errCallback")) "errCallback" rfl
    (by simp [outcomes]) rfl

/-- C16: Application.Close invokes every close callback once, in registration order,
whether or not earlier ones failed: the state of the program afterwards is the one
after all of them, and the returned slice holds exactly the non-nil errors they
returned, in the same order; it is empty if and only if no callback failed; a nil
callback followed by a failing one give the one-element slice with the error of the
failing one, and so does the failing one followed by the nil one. -/
theorem close_collects_errors {σ : Type} (cbs : List (ApplicationCallback σ)) (s : σ) :
    Close cbs s = (invokeAll cbs s, (outcomes cbs s).reduceOption) ∧
    (outcomes cbs s).length = cbs.length ∧
    ((Close cbs s).2 = [] ↔ ∀ o ∈ outcomes cbs s, o = none) ∧
    (∀ (nilCallback errCallback : ApplicationCallback σ) (err : String),
      (∀ t, (nilCallback t).2 = none) → (∀ t, (errCallback t).2 = some err) →
      (Close [nilCallback, errCallback] s).2 = [err] ∧
      (Close [errCallback, nilCallback] s).2 = [err]) := by
  have hclose : ∀ (l : List (ApplicationCallback σ)),
      Close l s = (invokeAll l s, (outcomes l s).reduceOption) := by
    intro l
    simp [Close, closeLoop_eq]
  refine ⟨hclose cbs, length_outcomes cbs s, ?_, ?_⟩
  · rw [hclose cbs]
    exact reduceOption_eq_nil (outcomes cbs s)
  · intro nilCallback errCallback err hnil herr
    rw [hclose, hclose]
    simp [outcomes, hnil, herr, List.reduceOption]

/-- Witness for C16: the nil callback and the failing callback of the test, which log
their invocation; both are invoked and one error is returned. -/
theorem close_collects_errors_witness :
    (Close [fun log => (log ++ ["errCallback"], some "errCallback"),
            fun log => (log ++ ["nilCallback"], none)] ([] : List String)).2 =
      ["errCallback"] :=
  ((close_collects_errors ([] : List (ApplicationCallback (List String))) []).2.2.2
    (fun log => (log ++ ["nilCallback"], none))
    (fun log => (log ++ ["errCallback"], some "errCallback")) "errCallback"
    (fun _ => rfl) (fun _ => rfl)).2

/-! ## Registering a controller -/

/-- The registration call that `register` makes for a supported method. -/
lemma registerLoop_supported {ω : Type} (quote : String → String) (empty : ω)
    (path : String) (c : Controller ω) (router : List (RouterCall ω)) (m : String)
    (rest : List String) (hm : m ∈ supportedMethods) :
    registerLoop quote empty path c router (m :: rest) =
      registerLoop quote empty path c
        (router ++ [⟨m, path, getHandlerOption empty c m⟩]) rest := by
  simp only [supportedMethods, List.mem_cons, List.mem_singleton, List.not_mem_nil,
    or_false] at hm
  rcases hm with h | h | h | h | h | h | h <;> subst h <;>
    simp [registerLoop, MethodGet, MethodPost, MethodPut, MethodDelete, MethodHead,
      MethodOptions, MethodPatch]

lemma registerLoop_unsupported {ω : Type} (quote : String → String) (empty : ω)
    (path : String) (c : Controller ω) (router : List (RouterCall ω)) (m : String)
    (rest : List String) (hm : m ∉ supportedMethods) :
    registerLoop quote empty path c router (m :: rest) =
      (router, some ("unsupport method " ++ quote m)) := by
  simp only [supportedMethods, List.mem_cons, List.mem_singleton, List.not_mem_nil,
    or_false, not_or] at hm
  obtain ⟨h1, h2, h3, h4, h5, h6, h7⟩ := hm
  simp [registerLoop, h1, h2, h3, h4, h5, h6, h7]

lemma registerLoop_leading {ω : Type} (quote : String → String) (empty : ω)
    (path : String) (c : Controller ω) (router : List (RouterCall ω))
    (before rest : List String) (h : ∀ x ∈ before, x ∈ supportedMethods) :
    registerLoop quote empty path c router (before ++ rest) =
      registerLoop quote empty path c
        (router ++ before.map (fun m => ⟨m, path, getHandlerOption empty c m⟩)) rest := by
  induction before generalizing router with
  | nil => simp
  | cons m ms ih =>
    have hm := h m (List.mem_cons_self _ _)
    have hms : ∀ x ∈ ms, x ∈ supportedMethods := fun x hx => h x (List.mem_cons_of_mem _ hx)
    rw [List.cons_append, registerLoop_supported quote empty path c router m _ hm,
      ih _ hms]
    simp

lemma exists_first_unsupported (ms : List String) (h : ¬ ∀ m ∈ ms, m ∈ supportedMethods) :
    ∃ before m after, ms = before ++ m :: after ∧
      (∀ x ∈ before, x ∈ supportedMethods) ∧ m ∉ supportedMethods := by
  induction ms with
  | nil => exact absurd (by simp) h
  | cons a rest ih =>
    by_cases ha : a ∈ supportedMethods
    · have hrest : ¬ ∀ m ∈ rest, m ∈ supportedMethods := by
        intro hall
        apply h
        intro m hm
        rcases List.mem_cons.1 hm with hm | hm
        · rw [hm]; exact ha
        · exact hall m hm
      obtain ⟨before, m, after, hsplit, hbefore, hm⟩ := ih hrest
      refine ⟨a :: before, m, after, by simp [hsplit], ?_, hm⟩
      intro x hx
      rcases List.mem_cons.1 hx with hx | hx
      · rw [hx]; exact ha
      · exact hbefore x hx
    · exact ⟨[], a, rest, rfl, by simp, ha⟩

/-- C17: for a controller whose Init succeeds, register returns nil if and only if
every string of Methods() is one of the seven supported method names, which are
GET, POST, PUT, DELETE, HEAD, OPTIONS and PATCH; otherwise the first entry of
Methods() that is not supported, in list order, is the one named in the returned
error "unsupport method <m in %q>". If Init fails, register returns its error and
makes no call on the router. -/
theorem register_supported_methods {ω : Type} (quote : String → String) (empty : ω)
    (router : List (RouterCall ω)) (path : String) (c : Controller ω) :
    (c.Init = none →
      ((register quote empty router path c).2 = none ↔
        ∀ m ∈ c.Methods, m ∈ supportedMethods)) ∧
    (c.Init = none → ∀ (before after : List String) (m : String),
      c.Methods = before ++ m :: after → (∀ x ∈ before, x ∈ supportedMethods) →
      m ∉ supportedMethods →
      (register quote empty router path c).2 = some ("unsupport method " ++ quote m)) ∧
    (∀ err : String, c.Init = some err →
      register quote empty router path c = (router, some err)) ∧
    supportedMethods = ["GET", "POST", "PUT", "DELETE", "HEAD", "OPTIONS", "PATCH"] := by
  have hfail : c.Init = none → ∀ (before after : List String) (m : String),
      c.Methods = before ++ m :: after → (∀ x ∈ before, x ∈ supportedMethods) →
      m ∉ supportedMethods →
      (register quote empty router path c).2 = some ("unsupport method " ++ quote m) := by
    intro hinit before after m hsplit hbefore hm
    simp only [register, hinit, hsplit]
    rw [registerLoop_leading quote empty path c router before _ hbefore,
      registerLoop_unsupported quote empty path c _ m after hm]
  refine ⟨?_, hfail, ?_, rfl⟩
  · intro hinit
    constructor
    · intro hnil
      by_contra hnot
      obtain ⟨before, m, after, hsplit, hbefore, hm⟩ :=
        exists_first_unsupported c.Methods hnot
      rw [hfail hinit before after m hsplit hbefore hm] at hnil
      exact absurd hnil (by simp)
    · intro hall
      simp only [register, hinit]
      have := registerLoop_leading quote empty path c router c.Methods [] hall
      rw [List.append_nil] at this
      rw [this]
      rfl
  · intro err hinit
    simp only [register, hinit]

/-- Witness for C17: the methods GET, POST, "get" and "invalidMethod"; the lower-case
"get" is the first unsupported entry and is the one reported. -/
theorem register_supported_methods_witness :
    (register sampleQuote (0 : Nat) [] "/"
      ⟨none, ["GET", "POST"] ++ "get" :: ["invalidMethod"], none⟩).2 =
      some ("unsupport method " ++ sampleQuote "get") :=
  (register_supported_methods sampleQuote (0 : Nat) [] "/"
    ⟨none, ["GET", "POST"] ++ "get" :: ["invalidMethod"], none⟩).2.1 rfl
    ["GET", "POST"] ["invalidMethod"] "get" rfl (by decide) (by decide)

/-! ## Lemmas on paths -/

lemma splitOnSlash_ne_nil (l : List Char) : splitOnSlash l ≠ [] := by
  cases l with
  | nil => simp [splitOnSlash]
  | cons c cs =>
    by_cases hc : c = '/'
    · simp [splitOnSlash, hc]
    · cases h : splitOnSlash cs <;> simp [splitOnSlash, hc, h]

lemma splitOnSlash_of_no_slash (l : List Char) (h : '/' ∉ l) : splitOnSlash l = [l] := by
  induction l with
  | nil => rfl
  | cons c cs ih =>
    simp only [List.mem_cons, not_or] at h
    have hc : ¬ c = '/' := fun e => h.1 e.symm
    simp [splitOnSlash, hc, ih h.2]

lemma splitOnSlash_append_slash (a b : List Char) :
    splitOnSlash (a ++ '/' :: b) = splitOnSlash a ++ splitOnSlash b := by
  induction a with
  | nil => simp [splitOnSlash]
  | cons c cs ih =>
    by_cases hc : c = '/'
    · simp [splitOnSlash, hc, ih]
    · cases h : splitOnSlash cs with
      | nil => exact absurd h (splitOnSlash_ne_nil cs)
      | cons w ws =>
        rw [h] at ih
        simp [splitOnSlash, hc, ih, h]

lemma intercalate_append_singleton (A : List (List Char)) (y : List Char) :
    ['/'].intercalate (A ++ [y]) =
      if A = [] then y else ['/'].intercalate A ++ '/' :: y := by
  induction A with
  | nil => simp [List.intercalate]
  | cons a rest ih =>
    cases rest with
    | nil => simp [List.intercalate]
    | cons b rest' =>
      simp only [List.intercalate] at ih ⊢
      simp at ih ⊢
      rw [ih]

lemma pathBase_of_last (Z y : List Char) (hy : '/' ∉ y) (hne : y ≠ [])
    (hZ : Z = [] ∨ ∃ Z', Z = Z' ++ ['/']) :
    pathBase (String.mk (Z ++ y)) = String.mk y := by
  have hnonempty : String.mk (Z ++ y) ≠ "" := by
    intro h
    have := congrArg String.data h
    simp at this
    exact hne this.2
  have hrev : (Z ++ y).reverse = y.reverse ++ Z.reverse := by simp
  have hdrop : (y.reverse ++ Z.reverse).dropWhile (fun c => c = '/') =
      y.reverse ++ Z.reverse := by
    cases hyr : y.reverse with
    | nil => simp at hyr; exact absurd hyr hne
    | cons c cs =>
      have hc : c ≠ '/' := by
        intro e
        apply hy
        have : c ∈ y.reverse := by rw [hyr]; simp
        rw [e] at this
        simpa using this
      simp [List.dropWhile, hc]
  have htake : (y.reverse ++ Z.reverse).takeWhile (fun c => c ≠ '/') = y.reverse := by
    have hall : ∀ c ∈ y.reverse, (fun c => decide (c ≠ '/')) c = true := by
      intro c hc
      have : c ∈ y := by simpa using hc
      simp
      intro e
      exact hy (e ▸ this)
    rcases hZ with hZ | ⟨Z', hZ⟩
    · subst hZ
      simp
      intro c hc e
      exact hy (e ▸ hc)
    · subst hZ
      rw [List.takeWhile_append_of_pos hall]
      simp [List.takeWhile]
  simp only [pathBase, if_neg hnonempty, hrev, hdrop, htake, List.reverse_reverse, if_neg hne]


lemma cleanStep_plain (rooted : Bool) (kept : List (List Char)) (y : List Char)
    (h0 : y ≠ []) (h1 : y ≠ ['.']) (h2 : y ≠ ['.', '.']) :
    cleanStep rooted kept y = y :: kept := by
  simp [cleanStep, h0, h1, h2]

lemma pathClean_last (B : List Char) (y : List Char) (hy : '/' ∉ y)
    (h0 : y ≠ []) (h1 : y ≠ ['.']) (h2 : y ≠ ['.', '.'])
    (J : List Char) (hJ : J = y ∨ J = B ++ '/' :: y) :
    ∃ Z, (Z = [] ∨ ∃ Z', Z = Z' ++ ['/']) ∧ pathClean (String.mk J) = String.mk (Z ++ y) := by
  have hJne : String.mk J ≠ "" := by
    intro h
    have hd := congrArg String.data h
    rcases hJ with hJ | hJ
    · rw [hJ] at hd
      exact h0 hd
    · rw [hJ] at hd
      simp at hd
  have hsplit : ∃ S, splitOnSlash J = S ++ [y] := by
    rcases hJ with hJ | hJ
    · exact ⟨[], by rw [hJ, splitOnSlash_of_no_slash y hy]; rfl⟩
    · exact ⟨splitOnSlash B, by
        rw [hJ, splitOnSlash_append_slash, splitOnSlash_of_no_slash y hy]⟩
  obtain ⟨S, hS⟩ := hsplit
  generalize hr : (decide (J.head? = some '/')) = rooted
  have hsegs : ((splitOnSlash J).foldl (cleanStep rooted) []).reverse =
      (S.foldl (cleanStep rooted) []).reverse ++ [y] := by
    rw [hS, List.foldl_append]
    simp [cleanStep_plain rooted _ y h0 h1 h2]
  have hout : ∃ Z, (Z = [] ∨ ∃ Z', Z = Z' ++ ['/']) ∧
      (if rooted then ['/'] else []) ++
        ['/'].intercalate (((splitOnSlash J).foldl (cleanStep rooted) []).reverse) =
        Z ++ y := by
    rw [hsegs, intercalate_append_singleton]
    by_cases hK : (S.foldl (cleanStep rooted) []).reverse = []
    · rw [if_pos hK]
      cases rooted with
      | true => exact ⟨['/'], Or.inr ⟨[], rfl⟩, rfl⟩
      | false => exact ⟨[], Or.inl rfl, rfl⟩
    · rw [if_neg hK]
      refine ⟨(if rooted then ['/'] else []) ++
        ['/'].intercalate (S.foldl (cleanStep rooted) []).reverse ++ ['/'],
        Or.inr ⟨_, rfl⟩, by simp⟩
  obtain ⟨Z, hZ, hZeq⟩ := hout
  refine ⟨Z, hZ, ?_⟩
  have hne : Z ++ y ≠ [] := by simp [h0]
  simp only [pathClean, if_neg hJne, hr, hZeq, if_neg hne]

lemma pathJoin_of_ne_nil (elems : List String)
    (h : elems.filter (fun e => e ≠ "") ≠ []) :
    pathJoin elems = pathClean (String.mk
      (['/'].intercalate ((elems.filter (fun e => e ≠ "")).map String.data))) := by
  unfold pathJoin
  cases hf : elems.filter (fun e => e ≠ "") with
  | nil => exact absurd hf h
  | cons e es => rfl

lemma pathBase_pathJoin_plain (P D x : String) (hx : '/' ∉ x.data) (h0 : x ≠ "")
    (h1 : x ≠ ".") (h2 : x ≠ "..") : pathBase (pathJoin [P, D, x]) = x := by
  have hy0 : x.data ≠ [] := fun h => h0 (by
    have : x = String.mk x.data := rfl
    rw [this, h])
  have hy1 : x.data ≠ ['.'] := fun h => h1 (by
    have : x = String.mk x.data := rfl
    rw [this, h])
  have hy2 : x.data ≠ ['.', '.'] := fun h => h2 (by
    have : x = String.mk x.data := rfl
    rw [this, h])
  have hfilter : [P, D, x].filter (fun e => e ≠ "") =
      [P, D].filter (fun e => e ≠ "") ++ [x] := by
    have : [P, D, x] = [P, D] ++ [x] := rfl
    rw [this, List.filter_append]
    simp [h0]
  have hne : [P, D, x].filter (fun e => e ≠ "") ≠ [] := by
    rw [hfilter]
    simp
  rw [pathJoin_of_ne_nil _ hne, hfilter, List.map_append, List.map_singleton,
    intercalate_append_singleton]
  obtain ⟨Z, hZ, hclean⟩ := pathClean_last
    (['/'].intercalate (([P, D].filter (fun e => e ≠ "")).map String.data)) x.data hx
    hy0 hy1 hy2
    (if ([P, D].filter (fun e => e ≠ "")).map String.data = [] then x.data
      else ['/'].intercalate (([P, D].filter (fun e => e ≠ "")).map String.data) ++
        '/' :: x.data)
    (by
      by_cases hA : ([P, D].filter (fun e => e ≠ "")).map String.data = []
      · exact Or.inl (by rw [if_pos hA])
      · exact Or.inr (by rw [if_neg hA]))
  rw [hclean, pathBase_of_last Z x.data hx hy0 hZ]

/-! ## The templates manager -/

lemma setLayout_success {τ : Type} (lib : TemplateLib τ) (quote : String → String)
    (ts ts' : Templates τ) (filenames : List String)
    (h : ts.SetLayout lib quote filenames = some (ts', none)) :
    ∃ first rest layout m, filenames = first :: rest ∧
      ts.New lib (filenames.map (fun filename =>
        pathJoin [ts.Path, ts.LayoutDir, filename ++ ts.Suffix])) = some (.ok layout) ∧
      ts.lookup (ts.layoutKey first) = none ∧ ts.layouts = some m ∧
      ts' = { ts with layouts := some (mapSet m (ts.layoutKey first) layout) } := by
  cases filenames with
  | nil => simp [Templates.SetLayout, Templates.New] at h
  | cons first rest =>
    refine ⟨first, rest, ?_⟩
    simp only [Templates.SetLayout, List.map_cons] at h
    simp only [List.map_cons]
    cases hnew : ts.New lib (pathJoin [ts.Path, ts.LayoutDir, first ++ ts.Suffix] ::
        rest.map (fun filename => pathJoin [ts.Path, ts.LayoutDir, filename ++ ts.Suffix]))
      with
    | none => rw [hnew] at h; simp at h
    | some r =>
      rw [hnew] at h
      cases r with
      | error err => simp at h
      | ok layout =>
        simp only at h
        cases hl : ts.lookup (pathBase (pathJoin [ts.Path, ts.LayoutDir, first ++ ts.Suffix]))
          with
        | some existing => rw [hl] at h; simp at h
        | none =>
          rw [hl] at h
          cases hm : ts.layouts with
          | none => rw [hm] at h; simp at h
          | some m =>
            rw [hm] at h
            simp at h
            exact ⟨layout, m, trivial, rfl, hl, rfl, h.symm⟩

lemma setLayout_existing_aux {τ : Type} (lib : TemplateLib τ) (quote : String → String)
    (ts : Templates τ) (first : String) (rest : List String) (existing : τ)
    (h : ts.lookup (ts.layoutKey first) = some existing) :
    (∀ layout, ts.New lib ((first :: rest).map (fun filename =>
        pathJoin [ts.Path, ts.LayoutDir, filename ++ ts.Suffix])) = some (.ok layout) →
      ts.SetLayout lib quote (first :: rest) = some (ts, some (.errorf
        ("the layout named " ++ quote (ts.layoutKey first) ++ " already exists")))) ∧
    (∀ r, ts.SetLayout lib quote (first :: rest) = some r → r.2 ≠ none ∧ r.1 = ts) := by
  have hkey : ts.lookup (pathBase (pathJoin [ts.Path, ts.LayoutDir, first ++ ts.Suffix])) =
      some existing := h
  constructor
  · intro layout hnew
    simp only [List.map_cons] at hnew
    simp [Templates.SetLayout, hnew, hkey, Templates.layoutKey]
  · intro r hr
    simp only [Templates.SetLayout, List.map_cons] at hr
    cases hnew : ts.New lib (pathJoin [ts.Path, ts.LayoutDir, first ++ ts.Suffix] ::
        rest.map (fun filename => pathJoin [ts.Path, ts.LayoutDir, filename ++ ts.Suffix]))
      with
    | none => rw [hnew] at hr; simp at hr
    | some res =>
      rw [hnew] at hr
      cases res with
      | error err =>
        simp at hr
        rw [← hr]
        simp
      | ok layout =>
        simp [hkey] at hr
        rw [← hr]
        simp

lemma layout_of_lookup {τ : Type} (quote : String → String) (ts : Templates τ)
    (name : String) (layout : τ) (h : ts.lookup (name ++ ts.Suffix) = some layout) :
    ts.Layout quote name = (some layout, none) := by
  simp [Templates.Layout, h]

lemma layoutKey_plain {τ : Type} (ts : Templates τ) (first : String)
    (hslash : '/' ∉ (first ++ ts.Suffix).data) (h0 : first ++ ts.Suffix ≠ "")
    (h1 : first ++ ts.Suffix ≠ ".") (h2 : first ++ ts.Suffix ≠ "..") :
    ts.layoutKey first = first ++ ts.Suffix :=
  pathBase_pathJoin_plain ts.Path ts.LayoutDir (first ++ ts.Suffix) hslash h0 h1 h2

/-- C18, as stated, fails: with the layouts below "/t/layouts", SetLayout("admin/main")
returns nil and registers the layout under "main.html", the base name of the file;
Layout("admin/main") afterwards looks up "admin/main.html" and returns a nil template
and the error "no layout named \"admin/main\"" (Layout("main") returns the
layout). -/
theorem setLayout_subdirectory_counterexample :
    ((NewTemplates (List String) "/t").SetLayout
        (sampleLib ["/t/layouts/admin/main.html"]) sampleQuote ["admin/main"]).map
      (fun r => (r.2, r.1.layouts, r.1.Layout sampleQuote "admin/main",
        r.1.Layout sampleQuote "main")) =
      some (none, some [("main.html", ["/t/layouts/admin/main.html"])],
        (none, some (.errorf "no layout named \"admin/main\"")),
        (some ["/t/layouts/admin/main.html"], none)) := by
  rfl

/-- C18, amended: if SetLayout(f0, f1, ...) returns nil, the list of file names is not
empty, the layout is the template that New gave for the files, and it is registered
under the base name of the path of the first file: Layout(n) afterwards returns that
layout with a nil error for every n such that n followed by the suffix is that base
name, which is the case for f0 itself when f0 followed by the suffix contains no
slash and is not empty, "." or "..". For every Templates value, Layout(name) for a
name such that nothing is registered under name followed by the suffix returns a nil
template and the error "no layout named <name in %q>". -/
theorem setLayout_then_layout {τ : Type} (lib : TemplateLib τ) (quote : String → String)
    (ts ts' : Templates τ) (filenames : List String)
    (h : ts.SetLayout lib quote filenames = some (ts', none)) :
    (∃ first rest layout, filenames = first :: rest ∧
      ts.New lib (filenames.map (fun filename =>
        pathJoin [ts.Path, ts.LayoutDir, filename ++ ts.Suffix])) = some (.ok layout) ∧
      ts'.lookup (ts.layoutKey first) = some layout ∧
      (∀ n : String, n ++ ts.Suffix = ts.layoutKey first →
        ts'.Layout quote n = (some layout, none)) ∧
      ('/' ∉ (first ++ ts.Suffix).data → first ++ ts.Suffix ≠ "" →
        first ++ ts.Suffix ≠ "." → first ++ ts.Suffix ≠ ".." →
        ts'.Layout quote first = (some layout, none))) ∧
    (∀ (t : Templates τ) (name : String), t.lookup (name ++ t.Suffix) = none →
      t.Layout quote name = (none, some (.errorf ("no layout named " ++ quote name)))) := by
  constructor
  · obtain ⟨first, rest, layout, m, hfiles, hnew, -, -, hts'⟩ :=
      setLayout_success lib quote ts ts' filenames h
    have hlookup : ts'.lookup (ts.layoutKey first) = some layout := by
      rw [hts']
      simp [Templates.lookup, mapGet_mapSet_same]
    have hsuffix : ts'.Suffix = ts.Suffix := by rw [hts']
    have hlayout : ∀ n : String, n ++ ts.Suffix = ts.layoutKey first →
        ts'.Layout quote n = (some layout, none) := by
      intro n hn
      apply layout_of_lookup
      rw [hsuffix, hn]
      exact hlookup
    refine ⟨first, rest, layout, hfiles, hnew, hlookup, hlayout, ?_⟩
    intro hslash h0 h1 h2
    exact hlayout first (layoutKey_plain ts first hslash h0 h1 h2).symm
  · intro t name hnone
    simp [Templates.Layout, hnone]

/-- Witness for C18: the layout "main" of the test is registered and fetched by the
same name, and "nonexistent" gives the error of the test. -/
theorem setLayout_then_layout_witness :
    (∃ layout : List String,
      ({ NewTemplates (List String) "/t" with
          layouts := some [("main.html", ["/t/layouts/main.html"])] } :
        Templates (List String)).Layout sampleQuote "main" = (some layout, none)) ∧
    (NewTemplates (List String) "/t").Layout sampleQuote "nonexistent" =
      (none, some (.errorf "no layout named \"nonexistent\"")) := by
  have h := setLayout_then_layout (sampleLib ["/t/layouts/main.html"]) sampleQuote
    (NewTemplates (List String) "/t")
    { NewTemplates (List String) "/t" with
      layouts := some [("main.html", ["/t/layouts/main.html"])] }
    ["main"] rfl
  constructor
  · obtain ⟨first, rest, layout, hfiles, -, -, hlayout, -⟩ := h.1
    have hfirst : "main" = first := (List.cons.inj hfiles).1
    subst hfirst
    exact ⟨layout, hlayout "main" rfl⟩
  · exact h.2 (NewTemplates (List String) "/t") "nonexistent" rfl

/-- C19, as stated, fails: with a layout registered under "main.html", the call
SetLayout("admin/main"), whose first file has the base name "main.html" and does not
exist, returns the error of the parser and not "the layout named \"main.html\"
already exists": the files are parsed before the name is looked up. The layouts map
is unchanged. -/
theorem setLayout_existing_counterexample :
    (({ NewTemplates (List String) "/t" with
          layouts := some [("main.html", ["/t/layouts/main.html"])] } :
        Templates (List String)).SetLayout (sampleLib ["/t/layouts/main.html"])
        sampleQuote ["admin/main"]).map (fun r => (r.2, r.1.layouts)) =
      some (some (.external "open /t/layouts/admin/main.html: no such file or directory"),
        some [("main.html", ["/t/layouts/main.html"])]) ∧
    ({ NewTemplates (List String) "/t" with
          layouts := some [("main.html", ["/t/layouts/main.html"])] } :
        Templates (List String)).lookup
      ((NewTemplates (List String) "/t").layoutKey "admin/main") =
      some ["/t/layouts/main.html"] := by
  constructor <;> rfl

/-- C19, amended: if a layout is already registered under the base name of the first
file and the files parse (New returns a template), SetLayout returns the error "the
layout named <base name, in %q> already exists", the base name being the first name
followed by the suffix when that contains no slash and is not empty, "." or "..";
and whenever a layout is already registered under that base name, every return of
SetLayout is an error and leaves the templates manager unchanged, so that Layout
returns for every name what it returned before. -/
theorem setLayout_existing {τ : Type} (lib : TemplateLib τ) (quote : String → String)
    (ts : Templates τ) (first : String) (rest : List String) (existing : τ)
    (h : ts.lookup (ts.layoutKey first) = some existing) :
    (∀ layout, ts.New lib ((first :: rest).map (fun filename =>
        pathJoin [ts.Path, ts.LayoutDir, filename ++ ts.Suffix])) = some (.ok layout) →
      ts.SetLayout lib quote (first :: rest) = some (ts, some (.errorf
        ("the layout named " ++ quote (ts.layoutKey first) ++ " already exists")))) ∧
    ('/' ∉ (first ++ ts.Suffix).data → first ++ ts.Suffix ≠ "" →
      first ++ ts.Suffix ≠ "." → first ++ ts.Suffix ≠ ".." →
      ts.layoutKey first = first ++ ts.Suffix) ∧
    (∀ r, ts.SetLayout lib quote (first :: rest) = some r →
      r.2 ≠ none ∧ r.1 = ts ∧ r.1.lookup (ts.layoutKey first) = some existing ∧
      ∀ name : String, r.1.Layout quote name = ts.Layout quote name) := by
  have haux := setLayout_existing_aux lib quote ts first rest existing h
  refine ⟨haux.1, layoutKey_plain ts first, ?_⟩
  intro r hr
  have := haux.2 r hr
  refine ⟨this.1, this.2, ?_, ?_⟩
  · rw [this.2]
    exact h
  · intro name
    rw [this.2]

/-- Witness for C19: the second SetLayout("main") of the test. -/
theorem setLayout_existing_witness :
    ({ NewTemplates (List String) "/t" with
          layouts := some [("main.html", ["/t/layouts/main.html"])] } :
        Templates (List String)).SetLayout (sampleLib ["/t/layouts/main.html"])
        sampleQuote ["main"] =
      some ({ NewTemplates (List String) "/t" with
          layouts := some [("main.html", ["/t/layouts/main.html"])] },
        some (.errorf ("the layout named " ++ sampleQuote "main.html" ++
          " already exists"))) :=
  (setLayout_existing (sampleLib ["/t/layouts/main.html"]) sampleQuote
    { NewTemplates (List String) "/t" with
      layouts := some [("main.html", ["/t/layouts/main.html"])] }
    "main" [] ["/t/layouts/main.html"] rfl).1 ["/t/layouts/main.html"] rfl

/-- C20: called with no file names, SetLayout, New and Render each return the error
errNoTemplateSpecified, for every templates manager (also one with a nil layouts map
or without delimiters): SetLayout leaves the templates manager as it is, New and
Render return a nil template, and Render does so for every layout name, whether or
not a layout is registered under it. -/
theorem no_template_specified {τ : Type} (lib : TemplateLib τ) (quote : String → String)
    (ts : Templates τ) :
    ts.SetLayout lib quote [] = some (ts, some .errNoTemplateSpecified) ∧
    ts.New lib [] = some (.error .errNoTemplateSpecified) ∧
    (∀ layoutName : String,
      ts.Render lib quote layoutName [] = (none, some .errNoTemplateSpecified)) ∧
    GoError.errNoTemplateSpecified.Error = "no template file specified" :=
  ⟨rfl, rfl, fun _ => rfl, rfl⟩

/-! ## Basic authentication -/

/-- C22: register is not atomic on failure. When Init succeeds and the methods before
the first unsupported entry of Methods() are supported, register returns the
"unsupport method" error for that entry, and the calls made on the router are the
earlier ones followed by one registration for each of those leading methods, in
order, and none for a later entry. When register returns an error, the router is
as it was if and only if Init failed or the first entry of Methods() is
unsupported. -/
theorem register_not_atomic {ω : Type} (quote : String → String) (empty : ω)
    (router : List (RouterCall ω)) (path : String) (c : Controller ω) :
    (c.Init = none → ∀ (before after : List String) (m : String),
      c.Methods = before ++ m :: after → (∀ x ∈ before, x ∈ supportedMethods) →
      m ∉ supportedMethods →
      register quote empty router path c =
        (router ++ before.map (fun x => ⟨x, path, getHandlerOption empty c x⟩),
          some ("unsupport method " ++ quote m))) ∧
    ((register quote empty router path c).2 ≠ none →
      ((register quote empty router path c).1 = router ↔
        (c.Init ≠ none ∨ ∃ m rest, c.Methods = m :: rest ∧ m ∉ supportedMethods))) := by
  have hfail : c.Init = none → ∀ (before after : List String) (m : String),
      c.Methods = before ++ m :: after → (∀ x ∈ before, x ∈ supportedMethods) →
      m ∉ supportedMethods →
      register quote empty router path c =
        (router ++ before.map (fun x => ⟨x, path, getHandlerOption empty c x⟩),
          some ("unsupport method " ++ quote m)) := by
    intro hinit before after m hsplit hbefore hm
    simp only [register, hinit, hsplit]
    rw [registerLoop_leading quote empty path c router before _ hbefore,
      registerLoop_unsupported quote empty path c _ m after hm]
  refine ⟨hfail, ?_⟩
  intro herr
  cases hinit : c.Init with
  | some err =>
    have hreg : register quote empty router path c = (router, some err) := by
      simp only [register, hinit]
    rw [hreg]
    simp
  | none =>
    have hnot : ¬ ∀ m ∈ c.Methods, m ∈ supportedMethods := by
      intro hall
      apply herr
      simp only [register, hinit]
      have := registerLoop_leading quote empty path c router c.Methods [] hall
      rw [List.append_nil] at this
      rw [this]
      rfl
    obtain ⟨before, m, after, hsplit, hbefore, hm⟩ := exists_first_unsupported c.Methods hnot
    rw [hfail hinit before after m hsplit hbefore hm]
    constructor
    · intro hsame
      right
      have hnil : before = [] := by
        have hlen := congrArg List.length hsame
        simp at hlen
        exact hlen
      subst hnil
      exact ⟨m, after, hsplit, hm⟩
    · rintro (h | ⟨m', rest, hm', hun⟩)
      · exact absurd rfl h
      · cases before with
        | nil => simp
        | cons b bs =>
          rw [hsplit] at hm'
          have hb : b = m' := (List.cons.inj hm').1
          exact absurd (hbefore b (List.mem_cons_self _ _)) (hb ▸ hun)

/-- Witness for C22: GET and POST are registered before "invalidMethod" is refused,
and PUT after it is not registered. -/
theorem register_not_atomic_witness :
    (register sampleQuote (0 : Nat) [] "/"
      ⟨none, ["GET", "POST"] ++ "invalidMethod" :: ["PUT"], none⟩).1.map
        (fun call => (call.verb, call.path)) = [("GET", "/"), ("POST", "/")] ∧
    (register sampleQuote (0 : Nat) [] "/"
      ⟨none, ["GET", "POST"] ++ "invalidMethod" :: ["PUT"], none⟩).2 =
        some "unsupport method \"invalidMethod\"" := by
  have h := (register_not_atomic sampleQuote (0 : Nat) [] "/"
    ⟨none, ["GET", "POST"] ++ "invalidMethod" :: ["PUT"], none⟩).1 rfl
    ["GET", "POST"] ["PUT"] "invalidMethod" rfl (by decide) (by decide)
  rw [h]
  exact ⟨rfl, rfl⟩

end Gem
